import Mathlib

/-!
# Verification of the gke-autoneg-controller reconciliation core

This development is a shallow embedding, in Lean 4, of the reconciliation
core of the `gke-autoneg-controller` repository:

* `controllers/types.go`   — the data model (configs, statuses, deltas);
* `controllers/autoneg.go` — `AutonegStatus.Backend`, `ReconcileStatus`,
  `validateNewConfig`, `getStatuses`, and `ReconcileBackends`;
* `controllers/utils.go`   — `IsValidServiceNameTemplate`,
  `generateServiceName`, `TrimFieldsEvenly`.

Modelling conventions:

* Go `string` is modelled as Lean `String` except in the name-generator
  component, where byte/char-level slicing matters and Go strings are
  modelled as `List Char` (exact for ASCII, and char-granular for the
  general case).  Lexicographic comparison of UTF-8 byte strings agrees
  with comparison by code points, so `String` order is faithful.
* Go `float64` is modelled as `ℚ` (the values manipulated here are
  decimal configuration numbers; no claim depends on binary rounding).
* Go `int32`/`int64` are modelled as `ℤ`; the conversion `int64(f)` of a
  `float64` truncates toward zero and is modelled by `goTrunc`.
* A Go `map[string]T` is modelled as an association list
  `GoMap T = List (String × T)` looked up by first match; a genuine Go
  map never holds a duplicate key, which theorems assume through the
  decidable well-formedness predicates below.  Iteration order of a Go
  map is unspecified; every loop of the embedded code either sorts
  before using an iteration result or writes to per-key slots, so the
  functions embedded here are well defined on the association list.
* Fallible code (Go `panic`, exhaustion of a slice) returns `Option`.
-/

namespace Autoneg

/-! ## Go maps as association lists -/

/-- Go map read `m[k]` returning `some v` on a hit (first matching key). -/
def GoMap.find {α : Type} (m : List (String × α)) (k : String) : Option α :=
  match m with
  | [] => none
  | (k', v) :: rest => if k' = k then some v else GoMap.find rest k

/-- Go map write `m[k] = v` (replaces the binding if the key is present). -/
def GoMap.insert {α : Type} (m : List (String × α)) (k : String) (v : α) :
    List (String × α) :=
  match m with
  | [] => [(k, v)]
  | (k', v') :: rest =>
      if k' = k then (k, v) :: rest else (k', v') :: GoMap.insert rest k v

/-- The key list of a Go map. -/
def GoMap.keys {α : Type} (m : List (String × α)) : List String :=
  m.map Prod.fst

/-! ## The data model (`controllers/types.go`) -/

/-- `AutonegCustomMetric` from `types.go`: one custom-metric definition for
the CUSTOM_METRICS balancing mode. -/
structure AutonegCustomMetric where
  dryRun : Bool
  maxUtilization : ℚ
  name : String
deriving DecidableEq, Repr

/-- `AutonegNEGConfig` from `types.go`: one backend-service target for one
port.  `initialCapacity` and `capacityScaler` are optional integers
(`*int32` in Go). -/
structure AutonegNEGConfig where
  name : String
  region : String
  rate : ℚ
  connections : ℚ
  customMetrics : List AutonegCustomMetric
  initialCapacity : Option ℤ
  capacityScaler : Option ℤ
deriving DecidableEq, Repr

/-- The zero value of `AutonegNEGConfig` (what a Go map read returns on a
missing key). -/
def AutonegNEGConfig.zero : AutonegNEGConfig :=
  { name := "", region := "", rate := 0, connections := 0,
    customMetrics := [], initialCapacity := none, capacityScaler := none }

/-- `AutonegConfig` from `types.go`: port → backend-service name → config. -/
structure AutonegConfig where
  backendServices : List (String × List (String × AutonegNEGConfig))
deriving DecidableEq, Repr

/-- `NEGStatus` from `types.go`: port → NEG name, plus the zone list. -/
structure NEGStatus where
  negs : List (String × String)
  zones : List String
deriving DecidableEq, Repr

/-- `AutonegSyncConfig` from `types.go`. -/
structure AutonegSyncConfig where
  capacityScaler : Option Bool
deriving DecidableEq, Repr

/-- `AutonegStatus` from `types.go`: the embedded `AutonegConfig` and
`NEGStatus` plus the optional sync config. -/
structure AutonegStatus where
  config : AutonegConfig
  negStatus : NEGStatus
  syncConfig : Option AutonegSyncConfig
deriving DecidableEq, Repr

/-- `compute.Backend` (the fields this controller reads or writes).
`maxConnectionsPerEndpoint` is `int64` in the API; `capacityScaler`,
`maxRatePerEndpoint` are `float64`, modelled as `ℚ`. -/
structure ComputeBackend where
  group : String
  balancingMode : String
  maxRatePerEndpoint : ℚ
  maxConnectionsPerEndpoint : ℤ
  capacityScaler : ℚ
  customMetrics : List AutonegCustomMetric
deriving DecidableEq, Repr

/-- `Backends` from `types.go`: a named, optionally regioned bundle of
backend entries. -/
structure Backends where
  name : String
  region : String
  backends : List ComputeBackend
deriving DecidableEq, Repr

/-- Go `int64(f)` on a non-negative-or-negative `float64`: truncation
toward zero. -/
def goTrunc (q : ℚ) : ℤ := if 0 ≤ q then ⌊q⌋ else ⌈q⌉

/-- Well-formedness of the association-list embedding of an
`AutonegStatus`: all embedded Go maps have pairwise-distinct keys (an
invariant every genuine Go map satisfies). -/
def AutonegStatus.WF (s : AutonegStatus) : Prop :=
  (GoMap.keys s.config.backendServices).Nodup ∧
    (∀ p ∈ s.config.backendServices, (GoMap.keys p.2).Nodup) ∧
    (GoMap.keys s.negStatus.negs).Nodup

instance (s : AutonegStatus) : Decidable s.WF := by
  unfold AutonegStatus.WF
  infer_instance

/-! ## `AutonegStatus.Backend` (`autoneg.go` lines 63–101) -/

/-- The capacity-scaler computation at the head of
`AutonegStatus.Backend`: start from the default `1`, let a valid
`initial_capacity` (0–100) seed it, then let a valid `capacity_scaler`
(0–100) override it; out-of-range values leave the previous value. -/
def capacityScalerOf (cfg : AutonegNEGConfig) : ℚ :=
  let afterInitial : ℚ :=
    match cfg.initialCapacity with
    | some c => if 0 ≤ c ∧ c ≤ 100 then (c : ℚ) / 100 else 1
    | none => 1
  match cfg.capacityScaler with
  | some c => if 0 ≤ c ∧ c ≤ 100 then (c : ℚ) / 100 else afterInitial
  | none => afterInitial

/-- `AutonegStatus.Backend` from `autoneg.go` (the revision in
`src/controllers/autoneg.go`): builds a `compute.Backend` for one group,
preferring RATE when `rate > 0` and falling back to CONNECTION.
A missing `(port, name)` entry yields the zero-value config, exactly as a
Go nested-map read does. -/
def AutonegStatus.Backend (s : AutonegStatus) (name port group : String) :
    ComputeBackend :=
  let cfg := (GoMap.find ((GoMap.find s.config.backendServices port).getD [])
    name).getD AutonegNEGConfig.zero
  let cs := capacityScalerOf cfg
  if cfg.rate > 0 then
    { group := group, balancingMode := "RATE",
      maxRatePerEndpoint := cfg.rate, maxConnectionsPerEndpoint := 0,
      capacityScaler := cs, customMetrics := [] }
  else
    { group := group, balancingMode := "CONNECTION",
      maxRatePerEndpoint := 0,
      maxConnectionsPerEndpoint := goTrunc cfg.connections,
      capacityScaler := cs, customMetrics := [] }

/-- `getGroup` from `autoneg.go`: the fully-qualified NEG group URL. -/
def getGroup (project zone neg : String) : String :=
  "https://www.googleapis.com/compute/v1/projects/" ++ project ++
    "/zones/" ++ zone ++ "/networkEndpointGroups/" ++ neg

/-- Modelled from the spec: the current revision of
`AutonegStatus.Backend`.  The `autoneg.go` under `src/` predates
custom-metrics support, while `types.go` declares `AutonegCustomMetric`
and the newer tests in `autoneg_test.go` expect the CUSTOM_METRICS
balancing mode from this method, so the deciding code is missing from
`src/`.  Per the spec (§3 invariants and §8 "Balancing-mode
precedence"): balancing mode is chosen by the precedence custom-metrics
(if any present) > rate (if > 0) > connections (fallback, possibly
zero); the custom-metric definitions are carried onto the backend entry;
the capacity-scaler computation is the one still present in `src/`
(`capacityScalerOf`). -/
def AutonegStatus.BackendCurrent (s : AutonegStatus)
    (name port group : String) : ComputeBackend :=
  let cfg := (GoMap.find ((GoMap.find s.config.backendServices port).getD [])
    name).getD AutonegNEGConfig.zero
  let cs := capacityScalerOf cfg
  if cfg.customMetrics.length > 0 then
    { group := group, balancingMode := "CUSTOM_METRICS",
      maxRatePerEndpoint := 0, maxConnectionsPerEndpoint := 0,
      capacityScaler := cs, customMetrics := cfg.customMetrics }
  else if cfg.rate > 0 then
    { group := group, balancingMode := "RATE",
      maxRatePerEndpoint := cfg.rate, maxConnectionsPerEndpoint := 0,
      capacityScaler := cs, customMetrics := [] }
  else
    { group := group, balancingMode := "CONNECTION",
      maxRatePerEndpoint := 0,
      maxConnectionsPerEndpoint := goTrunc cfg.connections,
      capacityScaler := cs, customMetrics := [] }

/-! ## Configuration validation (`autoneg.go` lines 437–464) -/

/-- The Go pattern "loop, return the first violation as an error":
`none` means the loop fell through without error. -/
def firstErr {α : Type} (l : List α) (f : α → Option String) : Option String :=
  match l with
  | [] => none
  | x :: rest =>
      match f x with
      | some e => some e
      | none => firstErr rest f

/-- `validateNewConfig` from `autoneg.go` (the revision in `src/`):
`initial_capacity` and `capacity_scaler`, when present, must lie in
[0, 100]; the `initial_capacity` pass runs before the `capacity_scaler`
pass. -/
def validateNewConfig (config : AutonegConfig) : Option String :=
  match firstErr config.backendServices (fun cfgs =>
    firstErr cfgs.2 (fun c =>
      match c.2.initialCapacity with
      | some ic =>
          if ic < 0 ∨ ic > 100 then
            some "initial_capacity must be between 0 and 100 inclusive"
          else none
      | none => none)) with
  | some e => some e
  | none =>
      firstErr config.backendServices (fun cfgs =>
        firstErr cfgs.2 (fun c =>
          match c.2.capacityScaler with
          | some csc =>
              if csc < 0 ∨ csc > 100 then
                some "capacity_scaler must be between 0 and 100 inclusive"
              else none
          | none => none))

/-- Modelled from the spec: the custom-metrics validation of the current
`validateConfig` is missing from `src/` (the `validateNewConfig` there
predates custom metrics; the newer tests call `validateConfig` and
reject out-of-range `max_utilization`).  Per the spec (§4.2):
"Custom-metrics list: at most 3 entries unless all entries beyond the
first three are marked dry-run; each max_utilization must lie in
[0.0, 1.0]". -/
def validateCustomMetrics (cfg : AutonegNEGConfig) : Option String :=
  match firstErr cfg.customMetrics (fun cm =>
    if cm.maxUtilization < 0 ∨ cm.maxUtilization > 1 then
      some "max_utilization must be in the range 0.0 to 1.0"
    else none) with
  | some e => some e
  | none =>
      if cfg.customMetrics.length > 3 ∧
          ¬ (∀ cm ∈ cfg.customMetrics.drop 3, cm.dryRun) then
        some "at most 3 custom metrics unless the rest are dry-run"
      else none

/-- Modelled from the spec: the current `validateConfig` — the checks of
the `src/` `validateNewConfig` plus the spec-mandated custom-metrics
checks. -/
def validateConfig (config : AutonegConfig) : Option String :=
  match validateNewConfig config with
  | some e => some e
  | none =>
      firstErr config.backendServices (fun cfgs =>
        firstErr cfgs.2 (fun c => validateCustomMetrics c.2))

/-! ## Name generation (`controllers/utils.go`)

`generateServiceName` measures and slices strings, so Go strings are
modelled here as char sequences (`GoStr`); lengths and slice indices are
char-granular, which coincides with Go's byte counts on ASCII input (and
every template token is ASCII). -/

/-- A Go string as its character sequence. -/
abbrev GoStr := List Char

/-- The template token `\x7bnamespace\x7d`. -/
def namespaceTag : GoStr := "\x7bnamespace\x7d".data

/-- The template token `\x7bname\x7d`. -/
def nameTag : GoStr := "\x7bname\x7d".data

/-- The template token `\x7bport\x7d`. -/
def portTag : GoStr := "\x7bport\x7d".data

/-- The template token `\x7bhash\x7d`. -/
def hashTag : GoStr := "\x7bhash\x7d".data

/-- `strings.Split(s, "-")`. -/
def splitOnDash : GoStr → List GoStr
  | [] => [[]]
  | c :: rest =>
      match splitOnDash rest, decide (c = '-') with
      | r, true => [] :: r
      | [], false => [[c]]
      | f :: fs, false => (c :: f) :: fs

/-- `strings.Join(l, "-")`. -/
def joinDash : List GoStr → GoStr
  | [] => []
  | [f] => f
  | f :: fs => f ++ '-' :: joinDash fs

/-- `strings.Count(s, "-")`. -/
def countDash (s : GoStr) : ℕ := s.count '-'

/-- Fuel-driven scan for `strings.Count(s, "\x7bhash\x7d")`: structural
recursion on the fuel so the kernel can evaluate it. -/
def countHashFuel : ℕ → GoStr → ℕ
  | 0, _ => 0
  | _ + 1, [] => 0
  | fuel + 1, c :: rest =>
      if (c :: rest).take 6 = hashTag then 1 + countHashFuel fuel (rest.drop 5)
      else countHashFuel fuel rest

/-- `strings.Count(s, "\x7bhash\x7d")`: non-overlapping occurrences of the
6-char hash token, scanning left to right. -/
def countHash (s : GoStr) : ℕ := countHashFuel s.length s

/-- `IsValidServiceNameTemplate` from `utils.go`: non-empty, and every
hyphen-separated tag is one of the four tokens. -/
def IsValidServiceNameTemplate (serviceNameTemplate : GoStr) : Bool :=
  if serviceNameTemplate = [] then false
  else (splitOnDash serviceNameTemplate).all (fun tag =>
    decide (tag = namespaceTag ∨ tag = nameTag ∨ tag = portTag ∨
      tag = hashTag))

/-! ### SHA-256 (Go `crypto/sha256`, called by `generateServiceName`) -/

/-- Truncation to a 32-bit word. -/
def w32 (n : ℕ) : ℕ := n % 4294967296

/-- 32-bit right rotation (input assumed < 2^32). -/
def rotr32 (k n : ℕ) : ℕ := w32 ((n >>> k) ||| (n <<< (32 - k)))

/-- The SHA-256 round constants (decimal). -/
def K256 : List ℕ :=
  [1116352408, 1899447441, 3049323471, 3921009573, 961987163,
   1508970993, 2453635748, 2870763221, 3624381080, 310598401,
   607225278, 1426881987, 1925078388, 2162078206, 2614888103,
   3248222580, 3835390401, 4022224774, 264347078, 604807628,
   770255983, 1249150122, 1555081692, 1996064986, 2554220882,
   2821834349, 2952996808, 3210313671, 3336571891, 3584528711,
   113926993, 338241895, 666307205, 773529912, 1294757372,
   1396182291, 1695183700, 1986661051, 2177026350, 2456956037,
   2730485921, 2820302411, 3259730800, 3345764771, 3516065817,
   3600352804, 4094571909, 275423344, 430227734, 506948616,
   659060556, 883997877, 958139571, 1322822218, 1537002063,
   1747873779, 1955562222, 2024104815, 2227730452, 2361852424,
   2428436474, 2756734187, 3204031479, 3329325298]

/-- The SHA-256 initial hash value (decimal). -/
def H256 : List ℕ :=
  [1779033703, 3144134277, 1013904242, 2773480762,
   1359893119, 2600822924, 528734635, 1541459225]

/-- SHA-256 message padding: append `0x80`, zeros to 56 mod 64, and the
bit length as 8 big-endian bytes. -/
def sha256pad (msg : List ℕ) : List ℕ :=
  let len := msg.length
  let zeros := (120 - (len + 1) % 64) % 64
  msg ++ 128 :: List.replicate zeros 0 ++
    [56, 48, 40, 32, 24, 16, 8, 0].map (fun k => (8 * len) >>> k % 256)

/-- Big-endian 4-byte groups to 32-bit words. -/
def bytesToWords : List ℕ → List ℕ
  | b0 :: b1 :: b2 :: b3 :: rest =>
      (((b0 * 256 + b1) * 256 + b2) * 256 + b3) :: bytesToWords rest
  | _ => []

/-- Fuel-driven 16-word chunking (structural recursion on the fuel so
the kernel can evaluate it). -/
def chunks16Fuel : ℕ → List ℕ → List (List ℕ)
  | 0, _ => []
  | _ + 1, [] => []
  | fuel + 1, x :: rest => (x :: rest.take 15) :: chunks16Fuel fuel (rest.drop 15)

/-- Split a word list into 16-word blocks. -/
def chunks16 (l : List ℕ) : List (List ℕ) := chunks16Fuel l.length l

/-- Append one word of the SHA-256 message schedule. -/
def scheduleStep (w : List ℕ) : List ℕ :=
  let n := w.length
  w ++ [w32 ((rotr32 17 (w.getD (n - 2) 0) ^^^ rotr32 19 (w.getD (n - 2) 0) ^^^
      (w.getD (n - 2) 0 >>> 10)) + w.getD (n - 7) 0 +
    (rotr32 7 (w.getD (n - 15) 0) ^^^ rotr32 18 (w.getD (n - 15) 0) ^^^
      (w.getD (n - 15) 0 >>> 3)) + w.getD (n - 16) 0)]

/-- Extend a 16-word block by `k` schedule words. -/
def schedule (w : List ℕ) : ℕ → List ℕ
  | 0 => w
  | k + 1 => schedule (scheduleStep w) k

/-- One SHA-256 compression round on the state `[a,b,c,d,e,f,g,h]`. -/
def compressStep (st : List ℕ) (kw : ℕ × ℕ) : List ℕ :=
  match st with
  | [a, b, c, d, e, f, g, h] =>
      let s1 := rotr32 6 e ^^^ rotr32 11 e ^^^ rotr32 25 e
      let ch := (e &&& f) ^^^ ((4294967295 ^^^ e) &&& g)
      let t1 := w32 (h + s1 + ch + kw.1 + kw.2)
      let s0 := rotr32 2 a ^^^ rotr32 13 a ^^^ rotr32 22 a
      let mj := (a &&& b) ^^^ (a &&& c) ^^^ (b &&& c)
      let t2 := w32 (s0 + mj)
      [w32 (t1 + t2), a, b, c, w32 (d + t1), e, f, g]
  | _ => st

/-- SHA-256 of a byte sequence, as its 32 digest bytes. -/
def sha256 (msg : List ℕ) : List ℕ :=
  let final := (chunks16 (bytesToWords (sha256pad msg))).foldl
    (fun H block =>
      let st := (K256.zip (schedule block 48)).foldl compressStep H
      List.zipWith (fun h s => w32 (h + s)) H st)
    H256
  final.foldr (fun w acc =>
    w / 16777216 % 256 :: w / 65536 % 256 :: w / 256 % 256 :: w % 256 :: acc)
    []

/-- A hex digit character. -/
def hexDigit (n : ℕ) : Char := "0123456789abcdef".data.getD n '0'

/-- Go `fmt.Sprintf("%x", digest)`: lowercase hex, two chars per byte. -/
def sha256hex (msg : List ℕ) : GoStr :=
  (sha256 msg).foldr (fun b acc => hexDigit (b / 16) :: hexDigit (b % 16) :: acc)
    []

/-- UTF-8 encoding of one char (Go's string representation). -/
def utf8Char (c : Char) : List ℕ :=
  let n := c.toNat
  if n < 128 then [n]
  else if n < 2048 then [192 + n / 64, 128 + n % 64]
  else if n < 65536 then [224 + n / 4096, 128 + n / 64 % 64, 128 + n % 64]
  else [240 + n / 262144, 128 + n / 4096 % 64, 128 + n / 64 % 64, 128 + n % 64]

/-- Go `[]byte(s)`: the UTF-8 bytes of a string. -/
def utf8Bytes (s : GoStr) : List ℕ :=
  s.foldr (fun c acc => utf8Char c ++ acc) []

/-! ### `TrimFieldsEvenly` and `generateServiceName` -/

/-- `maxNameLength` from `utils.go`. -/
def maxNameLength : ℕ := 63

/-- Go slice expression `s[:l]`: `none` models the runtime panic when `l`
is negative or exceeds the length. -/
def goSliceTo (s : GoStr) (l : ℤ) : Option GoStr :=
  if 0 ≤ l ∧ l ≤ (s.length : ℤ) then some (s.take l.toNat) else none

/-- Slice every field to its computed bound (`none` as soon as one slice
panics). -/
def goSliceAll : List (GoStr × ℤ) → Option (List GoStr)
  | [] => some []
  | p :: ps =>
      match goSliceTo p.1 p.2, goSliceAll ps with
      | some s, some rest => some (s :: rest)
      | _, _ => none

/-- `TrimFieldsEvenly` from `utils.go`: trim the fields evenly, spreading
the excess in proportion to each field's length and giving the rounding
remainder back to the earliest fields.  The Go increment loop
`for i := 0; i < remaining; i++ \x7b lengths[i]++ \x7d` becomes an
increment of the first `remaining` entries; `remaining` larger than the
number of fields would make that loop index out of range (panic,
modelled `none`), and a negative computed slice bound panics inside
`fields[i][:l]` (`goSliceTo` returns `none`). -/
def TrimFieldsEvenly (max : ℤ) (fields : List GoStr) : Option (List GoStr) :=
  if max ≤ 0 then some fields
  else
    let total : ℤ := (((fields.map List.length).sum : ℕ) : ℤ)
    if total ≤ max then some fields
    else
      let excess : ℕ := (total - max).toNat
      let lengths : List ℤ := fields.map (fun s =>
        (s.length : ℤ) - ((s.length * excess / total.toNat : ℕ) : ℤ) - 1)
      let remaining : ℤ := max - lengths.sum
      if (fields.length : ℤ) < remaining then none
      else
        let lengths2 := (lengths.take remaining.toNat).map (fun l => l + 1) ++
          lengths.drop remaining.toNat
        goSliceAll (fields.zip lengths2)

/-- The 8-char hash component of a generated name: the first 8 hex chars
of the SHA-256 digest of the hyphen-joined `namespace-name-port`. -/
def serviceNameHash (ns nm pt : GoStr) : GoStr :=
  (sha256hex (utf8Bytes (joinDash [ns, nm, pt]))).take 8

/-- The non-hash fields of the template, in template order, taken from
the (namespace, name, port) inputs. -/
def fieldsToTruncate (ns nm pt : GoStr) : List GoStr → List GoStr
  | [] => []
  | field :: rest =>
      if field = namespaceTag then ns :: fieldsToTruncate ns nm pt rest
      else if field = nameTag then nm :: fieldsToTruncate ns nm pt rest
      else if field = portTag then pt :: fieldsToTruncate ns nm pt rest
      else fieldsToTruncate ns nm pt rest

/-- The length budget available to the non-hash fields:
`63 − 8·(hash tokens) − (hyphens)`. -/
def templateBudget (tpl : GoStr) : ℤ :=
  (maxNameLength : ℤ) - (countHash tpl : ℤ) * 8 - (countDash tpl : ℤ)

/-- The final assembly loop of `generateServiceName`: walk the template
tags, emitting the hash for each hash token and consuming the next
truncated field otherwise (`none` models the index-out-of-range panic
when the truncated fields run out). -/
def assembleFields (hash : GoStr) : List GoStr → List GoStr → Option (List GoStr)
  | [], _ => some []
  | tag :: tags, truncFields =>
      if tag = hashTag then
        (assembleFields hash tags truncFields).map (fun fs => hash :: fs)
      else
        match truncFields with
        | [] => none
        | f :: fs => (assembleFields hash tags fs).map (fun rest => f :: rest)

/-- `generateServiceName` from `utils.go`. -/
def generateServiceName (ns nm pt tpl : GoStr) : Option GoStr :=
  let hash := serviceNameHash ns nm pt
  let serviceTemplateTags := splitOnDash tpl
  (TrimFieldsEvenly (templateBudget tpl)
      (fieldsToTruncate ns nm pt serviceTemplateTags)).bind
    (fun truncFields =>
      (assembleFields hash serviceTemplateTags truncFields).map joinDash)

/-! ## `getStatuses` (`autoneg.go`)

The annotation map reaches `getStatuses` as JSON strings; decoding is
abstracted here: each slot of `AnnotationsDecoded` is either absent
(`none`) or carries its successfully decoded value, so the
`json.Unmarshal` error returns fall outside the embedded fragment.  The
possible `generateServiceName` panic propagates as `GoOutcome.panic`. -/

/-- `NEGConfig` from `types.go`: the key set of the `exposed_ports`
map of the `cloud.google.com/neg` annotation. -/
structure NEGConfig where
  exposedPorts : List String
deriving DecidableEq, Repr

/-- The zero value of `NEGConfig`. -/
def NEGConfig.zero : NEGConfig := { exposedPorts := [] }

/-- `OldAutonegConfig` from `types.go` (legacy desired config). -/
structure OldAutonegConfig where
  name : String
  rate : ℚ
deriving DecidableEq, Repr

/-- The zero value of `OldAutonegConfig`. -/
def OldAutonegConfig.zero : OldAutonegConfig := { name := "", rate := 0 }

/-- The zero value of `NEGStatus`. -/
def NEGStatus.zero : NEGStatus := { negs := [], zones := [] }

/-- `OldAutonegStatus` from `types.go` (embedded legacy config plus NEG
status). -/
structure OldAutonegStatus where
  oldConfig : OldAutonegConfig
  negStatus : NEGStatus
deriving DecidableEq, Repr

/-- The zero value of `OldAutonegStatus`. -/
def OldAutonegStatus.zero : OldAutonegStatus :=
  { oldConfig := OldAutonegConfig.zero, negStatus := NEGStatus.zero }

/-- `AutonegConfigTemp` from `types.go`: the decoded shape of the
desired-config annotation (a list of configs per port). -/
structure AutonegConfigTemp where
  backendServices : List (String × List AutonegNEGConfig)
deriving DecidableEq, Repr

/-- The zero value of `AutonegStatus`. -/
def AutonegStatus.zero : AutonegStatus :=
  { config := { backendServices := [] }, negStatus := NEGStatus.zero,
    syncConfig := none }

/-- `Statuses` from `types.go`: everything `getStatuses` decodes. -/
structure Statuses where
  oldConfig : OldAutonegConfig
  config : AutonegConfig
  oldStatus : OldAutonegStatus
  status : AutonegStatus
  negStatus : NEGStatus
  negConfig : NEGConfig
  syncConfig : Option AutonegSyncConfig
  newConfig : Bool
deriving DecidableEq, Repr

/-- The zero value of `Statuses` (Go's zero-valued named return `s`). -/
def Statuses.zero : Statuses :=
  { oldConfig := OldAutonegConfig.zero, config := { backendServices := [] },
    oldStatus := OldAutonegStatus.zero, status := AutonegStatus.zero,
    negStatus := NEGStatus.zero, negConfig := NEGConfig.zero,
    syncConfig := none, newConfig := false }

/-- The `ServiceReconciler` fields `getStatuses` reads. -/
structure ServiceReconcilerCfg where
  allowServiceName : Bool
  serviceNameTemplate : String
  maxRatePerEndpointDefault : ℚ
  maxConnectionsPerEndpointDefault : ℚ
  deregisterNEGsOnAnnotationRemoval : Bool
deriving DecidableEq, Repr

/-- The decoded annotation map (`none` = annotation absent). -/
structure AnnotationsDecoded where
  negConfig : Option NEGConfig
  autoneg : Option AutonegConfigTemp
  autonegSync : Option AutonegSyncConfig
  autonegStatus : Option AutonegStatus
  oldAutoneg : Option OldAutonegConfig
  oldAutonegStatus : Option OldAutonegStatus
  negStatus : Option NEGStatus
deriving DecidableEq, Repr

/-- Outcome of a Go function with an `error` return that may also panic. -/
inductive GoOutcome (α : Type) where
  | panic : GoOutcome α
  | error (msg : String) : GoOutcome α
  | ok (val : α) : GoOutcome α
deriving DecidableEq, Repr

/-- Backend-name resolution inside the new-mode loop of `getStatuses`:
empty names (or disallowed explicit names) default to the generated
template name. -/
def resolveBackendName (ns name port : String) (r : ServiceReconcilerCfg)
    (cfg : AutonegNEGConfig) : Option String :=
  if cfg.name = "" ∨ r.allowServiceName = false then
    (generateServiceName ns.data name.data port.data
      r.serviceNameTemplate.data).map (fun l => l.asString)
  else some cfg.name

/-- The rate/connections defaulting inside the new-mode loop of
`getStatuses`. -/
def applyBackendDefaults (r : ServiceReconcilerCfg)
    (cfg : AutonegNEGConfig) : AutonegNEGConfig :=
  if cfg.rate = 0 ∧ cfg.connections = 0 then
    if r.maxRatePerEndpointDefault > 0 then
      { cfg with rate := r.maxRatePerEndpointDefault }
    else { cfg with connections := r.maxConnectionsPerEndpointDefault }
  else cfg

/-- The inner new-mode loop: build one port's name-keyed backend map. -/
def buildPortBackends (ns name port : String) (r : ServiceReconcilerCfg)
    (cfgs : List AutonegNEGConfig) :
    Option (List (String × AutonegNEGConfig)) :=
  cfgs.foldl (fun acc cfg =>
    acc.bind (fun m =>
      (resolveBackendName ns name port r cfg).map (fun n =>
        GoMap.insert m n (applyBackendDefaults r { cfg with name := n }))))
    (some [])

/-- The outer new-mode loop: build the port-keyed backend-service map. -/
def buildBackendServices (ns name : String) (r : ServiceReconcilerCfg)
    (bs : List (String × List AutonegNEGConfig)) :
    Option (List (String × List (String × AutonegNEGConfig))) :=
  bs.foldl (fun acc p =>
    acc.bind (fun m =>
      (buildPortBackends ns name p.1 r p.2).map (fun inner =>
        GoMap.insert m p.1 inner)))
    (some [])

/-- The `autonegStatusAnnotation` block of `getStatuses`: returns the
updated statuses, the updated `valid` and the `statusOk` flag. -/
def applyStatusAnn (r : ServiceReconcilerCfg) (ann : AnnotationsDecoded)
    (s : Statuses) (valid newOk : Bool) : Statuses × Bool × Bool :=
  match ann.autonegStatus with
  | none => (s, valid, false)
  | some st =>
      if newOk = false ∧ r.deregisterNEGsOnAnnotationRemoval = true then
        let sCleared := { s with config := { backendServices := [] } }
        ({ sCleared with newConfig := true, status := st }, true, true)
      else
        ({ s with status := st }, valid, true)

/-- The legacy block of `getStatuses` (runs only when neither the
new-mode annotation nor the new-mode status annotation is present):
decode the legacy config, default its name to the service name, translate
it to the multi-backend schema when exactly one port is exposed, then
decode the legacy status annotation. -/
def applyLegacy (name : String) (r : ServiceReconcilerCfg)
    (ann : AnnotationsDecoded) (s : Statuses) (valid : Bool) :
    GoOutcome (Statuses × Bool) :=
  match ann.oldAutoneg with
  | some raw =>
      let oldCfg := if raw.name = "" then { raw with name := name } else raw
      let s1 := { s with oldConfig := oldCfg }
      match s1.negConfig.exposedPorts with
      | [firstPort] =>
          let s2 := { s1 with config := { backendServices :=
            [(firstPort, [(oldCfg.name,
              { name := oldCfg.name, region := "", rate := oldCfg.rate,
                connections := 0, customMetrics := [],
                initialCapacity := none, capacityScaler := none })])] } }
          match ann.oldAutonegStatus with
          | some ost => GoOutcome.ok ({ s2 with oldStatus := ost }, true)
          | none => GoOutcome.ok (s2, true)
      | _ =>
          GoOutcome.error
            "more than one port in cloud.google.com/neg, but autoneg configuration is for one or no ports"
  | none =>
      match ann.oldAutonegStatus with
      | none => GoOutcome.ok (s, valid)
      | some ost =>
          if r.deregisterNEGsOnAnnotationRemoval = true then
            let s1 := { s with oldConfig := OldAutonegConfig.zero }
            GoOutcome.ok ({ s1 with oldStatus := ost }, true)
          else
            GoOutcome.ok ({ s with oldStatus := ost }, valid)

/-- `getStatuses` from `autoneg.go` over decoded annotations. -/
def getStatuses (ns name : String) (ann : AnnotationsDecoded)
    (r : ServiceReconcilerCfg) : GoOutcome (Statuses × Bool) :=
  let s1 := { Statuses.zero with negConfig := ann.negConfig.getD NEGConfig.zero }
  match ann.autoneg with
  | some tempConfig =>
      match buildBackendServices ns name r tempConfig.backendServices with
      | none => GoOutcome.panic
      | some bs =>
          let s1s := { s1 with syncConfig := ann.autonegSync }
          let s2 := { s1s with config := { backendServices := bs } }
          match validateNewConfig s2.config with
          | some e => GoOutcome.error e
          | none =>
              let s3 := { s2 with newConfig := true }
              let t := applyStatusAnn r ann s3 true true
              let s4 := { t.1 with negStatus := ann.negStatus.getD t.1.negStatus }
              GoOutcome.ok (s4, t.2.1)
  | none =>
      let t := applyStatusAnn r ann s1 false false
      if t.2.2 = true then
        let s4 := { t.1 with negStatus := ann.negStatus.getD t.1.negStatus }
        GoOutcome.ok (s4, t.2.1)
      else
        match applyLegacy name r ann t.1 t.2.1 with
        | GoOutcome.panic => GoOutcome.panic
        | GoOutcome.error e => GoOutcome.error e
        | GoOutcome.ok sv =>
            let s4 := { sv.1 with negStatus := ann.negStatus.getD sv.1.negStatus }
            GoOutcome.ok (s4, sv.2)

/-! ## The backend-service mutation protocol

The current `ReconcileBackends` revision (4 arguments, with the
`deleting` flag) is not part of `src/` — only its callers and tests are —
so the per-pair protocol below is modelled from the spec's own
description of the mutation protocol.  The external backend-service API
is a name-keyed store of backend lists; regions select the global or
regional endpoint for the same named resource and do not affect the
store key.  Patch failures, operation polling and `If-Match`
preconditions are outside the modelled fragment: the model records the
calls issued (`APICall`) so that ordering and tolerance are statable. -/

/-- The external backend-service store: name → backend list. -/
def Env : Type := List (String × List ComputeBackend)

/-- One call to the external backend-service API. -/
inductive APICall where
  | get (name : String) : APICall
  | patch (name : String) (backends : List ComputeBackend) : APICall
deriving DecidableEq, Repr

/-- Modelled from the spec: fetch with not-found tolerance — a missing
resource is replaced by a synthesized in-memory resource with zero
backends. -/
def fetchTolerant (env : Env) (name : String) : List ComputeBackend :=
  match GoMap.find env name with
  | some bs => bs
  | none => []

/-- Modelled from the spec: the remove phase — for every group in the
remove bundle, delete the matching backend entry (matched by group
identifier), preserving the relative order of the remaining entries. -/
def removeMatching (bs : List ComputeBackend)
    (toRemove : List ComputeBackend) : List ComputeBackend :=
  toRemove.foldl (fun acc d => acc.eraseP (fun be => decide (be.group = d.group)))
    bs

/-- Whether the intended sync config explicitly enables capacity-scaler
synchronization. -/
def syncScaler (sync : Option AutonegSyncConfig) : Bool :=
  match sync with
  | some sc => sc.capacityScaler = some true
  | none => false

/-- Modelled from the spec: one upsert — update rate/connections/custom
metrics in place when the group already exists (the capacity scaler only
when sync is explicitly enabled, otherwise it is explicitly zeroed),
append a new entry otherwise. -/
def upsertOne (sync : Option AutonegSyncConfig)
    (bs : List ComputeBackend) (u : ComputeBackend) : List ComputeBackend :=
  if bs.any (fun be => be.group = u.group) then
    bs.map (fun be =>
      if be.group = u.group then
        { be with
            maxRatePerEndpoint := u.maxRatePerEndpoint,
            maxConnectionsPerEndpoint := u.maxConnectionsPerEndpoint,
            customMetrics := u.customMetrics,
            capacityScaler :=
              if syncScaler sync = true then u.capacityScaler else 0 }
      else be)
  else bs ++ [u]

/-- Modelled from the spec: the per-(port, backend-service) mutation
protocol — fetch the remove target (not-found tolerated), separately
fetch a differently-named upsert target (same tolerance), run the remove
phase, push the mutated old resource when a removal changed it and the
operation is a pure move or the deletion path, run the upsert phase, and
push the new resource when the upsert bundle is non-empty.  Returns the
updated store and the API calls in order. -/
def processPair (sync : Option AutonegSyncConfig) (deleting : Bool)
    (remove upsert : Backends) (env : Env) : Env × List APICall :=
  let oldBackends := fetchTolerant env remove.name
  let calls1 : List APICall := [APICall.get remove.name]
  let calls2 : List APICall :=
    if upsert.name = remove.name then [] else [APICall.get upsert.name]
  let oldAfter := removeMatching oldBackends remove.backends
  let svcUpdated : Bool := decide (oldAfter ≠ oldBackends)
  let pushOld : Bool :=
    svcUpdated && (decide (upsert.name ≠ remove.name) || deleting)
  let env1 := if pushOld = true then GoMap.insert env remove.name oldAfter
    else env
  let calls3 : List APICall :=
    if pushOld = true then [APICall.patch remove.name oldAfter] else []
  let base := if upsert.name = remove.name then oldAfter
    else fetchTolerant env upsert.name
  let newAfter := upsert.backends.foldl (upsertOne sync) base
  let env2 := if upsert.backends ≠ [] then GoMap.insert env1 upsert.name newAfter
    else env1
  let calls4 : List APICall :=
    if upsert.backends ≠ [] then [APICall.patch upsert.name newAfter] else []
  (env2, calls1 ++ calls2 ++ calls3 ++ calls4)

/-- Modelled from the spec: `applyReconciliation` — the per-pair protocol
iterated over the (remove, upsert) pairs in diff order, threading the
store and accumulating the call trace. -/
def applyReconciliation (sync : Option AutonegSyncConfig) (deleting : Bool)
    (pairs : List (Backends × Backends)) (env : Env) : Env × List APICall :=
  pairs.foldl (fun acc pr =>
    let r := processPair sync deleting pr.1 pr.2 acc.1
    (r.1, acc.2 ++ r.2)) (env, [])

/-! ## Sorting

Go's `sort.Strings` sorts byte-lexicographically; `sortBackends` uses
`sort.SliceStable` on the strict order of the `Group` field.  Both are
modelled by a stable insertion sort on the corresponding strict order:
any two elements the embedded code ever sorts that compare equal are
identical values (groups are drawn from sets), so every correct sort
produces the same list. -/

/-- Insert `x` before the first strictly greater element (stable). -/
def insertBy {α : Type} (lt : α → α → Bool) (x : α) : List α → List α
  | [] => [x]
  | y :: ys => if lt x y then x :: y :: ys else y :: insertBy lt x ys

/-- Stable insertion sort on the strict order `lt`. -/
def sortBy {α : Type} (lt : α → α → Bool) : List α → List α
  | [] => []
  | x :: xs => insertBy lt x (sortBy lt xs)

/-- `sort.Strings` from the Go standard library. -/
def sortStrings (l : List String) : List String :=
  sortBy (fun a b => decide (a < b)) l

/-- `sortBackends` from `autoneg.go`: stable sort by the `Group` field. -/
def sortBackends (l : List ComputeBackend) : List ComputeBackend :=
  sortBy (fun a b => decide (a.group < b.group)) l

/-! ## `ReconcileStatus` (`autoneg.go` lines 307–431)

`ReconcileStatus` first expands the NEG statuses into per-port sets of
group URLs (`actualBE` / `intendedBE`), then walks the intended ports in
sorted order building the upsert and remove bundles, then handles
backend services and whole ports that disappeared from the intended
state.  The Go function fills the two result maps inside a single pass;
the embedding computes each result map by its own structurally identical
pass (the iterations write to disjoint per-key slots, so the two forms
are denotationally equal). -/

/-- The per-port group set `actualBE[port]` (resp. `intendedBE[port]`) of
`ReconcileStatus`: one group URL per (zone, NEG-for-the-port) pair.  A Go
`map[string]struct{}` holds each group once, hence the `dedup`. -/
def groupsFor (project : String) (s : AutonegStatus) (port : String) :
    List String :=
  match GoMap.find s.negStatus.negs port with
  | none => []
  | some neg => (s.negStatus.zones.map (fun zone => getGroup project zone neg)).dedup

/-- The upsert bundle `upserts[port][bname]` built for an intended
backend-service entry `be`: one backend entry per intended group, sorted
by group. -/
def upsertEntry (project : String) (intended : AutonegStatus) (port bname : String)
    (be : AutonegNEGConfig) : Backends :=
  { name := be.name, region := be.region,
    backends := sortBackends ((sortStrings (groupsFor project intended port)).map
      (fun i => intended.Backend bname port i)) }

/-- The remove bundle `removes[port][bname]` built for an intended
backend-service entry `be`, following the tie-break of `ReconcileStatus`:

* same (or not-yet-assigned, i.e. empty) name in `actual` — incremental
  diff: actual groups not intended any more;
* different name in `actual` — a move: all actual groups, and the bundle
  is retargeted at the old name/region;
* no entry in `actual` — an empty bundle under the intended name. -/
def removeEntry (project : String) (actual intended : AutonegStatus)
    (port bname : String) (be : AutonegNEGConfig) : Backends :=
  match GoMap.find ((GoMap.find actual.config.backendServices port).getD []) bname with
  | some acfg =>
      if acfg.name = be.name ∨ acfg.name = "" then
        { name := be.name, region := be.region,
          backends := sortBackends (((groupsFor project actual port).filter
            (fun a => !(groupsFor project intended port).contains a)).map
            (fun a => actual.Backend bname port a)) }
      else
        { name := acfg.name, region := acfg.region,
          backends := sortBackends ((groupsFor project actual port).map
            (fun a => actual.Backend bname port a)) }
  | none =>
      { name := be.name, region := be.region, backends := [] }

/-- The full-removal bundle built for a backend-service name present in
`actual` but absent from `intended` for a port: all actual groups, under
the actual name/region. -/
def removedEntry (project : String) (actual : AutonegStatus)
    (port aname : String) (be : AutonegNEGConfig) : Backends :=
  { name := be.name, region := be.region,
    backends := sortBackends ((groupsFor project actual port).map
      (fun a => actual.Backend aname port a)) }

/-- The per-port remove map of `ReconcileStatus`: the intended entries'
bundles, then full removals for actual-only names. -/
def removesForPort (project : String) (actual intended : AutonegStatus)
    (port : String) : List (String × Backends) :=
  let bsI := (GoMap.find intended.config.backendServices port).getD []
  let bsA := (GoMap.find actual.config.backendServices port).getD []
  let afterIntended := bsI.foldl
    (fun m p => GoMap.insert m p.1 (removeEntry project actual intended port p.1 p.2))
    []
  bsA.foldl
    (fun m p =>
      if (GoMap.find bsI p.1).isSome then m
      else GoMap.insert m p.1 (removedEntry project actual port p.1 p.2))
    afterIntended

/-- The per-port upsert map of `ReconcileStatus`: the intended entries'
bundles, then empty bundles for actual-only names. -/
def upsertsForPort (project : String) (actual intended : AutonegStatus)
    (port : String) : List (String × Backends) :=
  let bsI := (GoMap.find intended.config.backendServices port).getD []
  let bsA := (GoMap.find actual.config.backendServices port).getD []
  let afterIntended := bsI.foldl
    (fun m p => GoMap.insert m p.1 (upsertEntry project intended port p.1 p.2))
    []
  bsA.foldl
    (fun m p =>
      if (GoMap.find bsI p.1).isSome then m
      else GoMap.insert m p.1 { name := p.2.name, region := p.2.region, backends := [] })
    afterIntended

/-- The sorted key list `intendedBEKeys` of `ReconcileStatus`: the ports
of the intended NEG map (`intendedBE` has exactly one entry per port of
`intended.NEGs`). -/
def intendedBEKeys (intended : AutonegStatus) : List String :=
  sortStrings (GoMap.keys intended.negStatus.negs).dedup

/-- `ReconcileStatus` from `autoneg.go`: the pair `(removes, upserts)` of
port-indexed maps of bundles. -/
def ReconcileStatus (project : String) (actual intended : AutonegStatus) :
    List (String × List (String × Backends)) × List (String × List (String × Backends)) :=
  let upserts := (intendedBEKeys intended).foldl
    (fun m port => GoMap.insert m port (upsertsForPort project actual intended port))
    []
  let mainRemoves := (intendedBEKeys intended).foldl
    (fun m port => GoMap.insert m port (removesForPort project actual intended port))
    []
  -- "see if some configs were removed entirely": ports of the actual
  -- backend-service map with no intended backend-service map entry get a
  -- full-removal bundle per name, merged into any existing per-port map.
  let removes := actual.config.backendServices.foldl
    (fun m p =>
      if (GoMap.find intended.config.backendServices p.1).isSome then m
      else
        GoMap.insert m p.1 (p.2.foldl
          (fun pm q => GoMap.insert pm q.1 (removedEntry project actual p.1 q.1 q.2))
          ((GoMap.find m p.1).getD [])))
    mainRemoves
  (removes, upserts)

/-!
# Theorems

General lemmas about the embedding's containers, then the claim
theorems.
-/

theorem GoMap.find_insert_self {α : Type} (m : List (String × α)) (k : String)
    (v : α) : GoMap.find (GoMap.insert m k v) k = some v := by
  induction m with
  | nil => simp [GoMap.insert, GoMap.find]
  | cons hd tl ih =>
      obtain ⟨k', v'⟩ := hd
      by_cases h : k' = k
      · simp [GoMap.insert, h, GoMap.find]
      · simp [GoMap.insert, h, GoMap.find, ih]

theorem GoMap.find_insert_ne {α : Type} (m : List (String × α)) (k k' : String)
    (v : α) (h : k' ≠ k) :
    GoMap.find (GoMap.insert m k' v) k = GoMap.find m k := by
  induction m with
  | nil => simp [GoMap.insert, GoMap.find, h]
  | cons hd tl ih =>
      obtain ⟨k'', v''⟩ := hd
      by_cases h2 : k'' = k'
      · subst h2
        have hk : ¬ k'' = k := h
        simp [GoMap.insert, GoMap.find, hk]
      · by_cases h3 : k'' = k
        · subst h3
          simp [GoMap.insert, h2, GoMap.find]
        · simp [GoMap.insert, h2, GoMap.find, h3, ih]

theorem GoMap.find_some_mem {α : Type} {m : List (String × α)} {k : String}
    {v : α} (h : GoMap.find m k = some v) : (k, v) ∈ m := by
  induction m with
  | nil => simp [GoMap.find] at h
  | cons hd tl ih =>
      obtain ⟨k', v'⟩ := hd
      by_cases h2 : k' = k
      · subst h2
        simp [GoMap.find] at h
        simp [h]
      · simp [GoMap.find, h2] at h
        exact List.mem_cons_of_mem _ (ih h)

theorem GoMap.find_isSome_of_mem {α : Type} {m : List (String × α)}
    {k : String} {v : α} (h : (k, v) ∈ m) : (GoMap.find m k).isSome := by
  induction m with
  | nil => simp at h
  | cons hd tl ih =>
      obtain ⟨k', v'⟩ := hd
      by_cases h2 : k' = k
      · simp [GoMap.find, h2]
      · simp [GoMap.find, h2]
        rcases List.mem_cons.mp h with h3 | h3
        · exact absurd (congrArg Prod.fst h3).symm h2
        · exact ih h3

theorem GoMap.find_eq_some_of_mem_nodup {α : Type} {m : List (String × α)}
    {k : String} {v : α} (hnd : (GoMap.keys m).Nodup) (h : (k, v) ∈ m) :
    GoMap.find m k = some v := by
  induction m with
  | nil => simp at h
  | cons hd tl ih =>
      obtain ⟨k', v'⟩ := hd
      simp only [GoMap.keys, List.map_cons, List.nodup_cons] at hnd
      rcases List.mem_cons.mp h with h3 | h3
      · obtain ⟨h4, h5⟩ := Prod.mk.injEq .. ▸ h3.symm
        simp [GoMap.find, h4.symm, h5]
      · have hk : k' ≠ k := by
          intro he
          exact hnd.1 (he ▸ List.mem_map_of_mem Prod.fst h3)
        simp [GoMap.find, hk, ih hnd.2 h3]

theorem insertBy_perm {α : Type} (lt : α → α → Bool) (x : α) (l : List α) :
    (insertBy lt x l).Perm (x :: l) := by
  induction l with
  | nil => simp [insertBy]
  | cons y ys ih =>
      by_cases h : lt x y
      · simp [insertBy, h]
      · simp only [insertBy, h, if_false]
        exact (ih.cons y).trans (List.Perm.swap x y ys)

theorem sortBy_perm {α : Type} (lt : α → α → Bool) (l : List α) :
    (sortBy lt l).Perm l := by
  induction l with
  | nil => simp [sortBy]
  | cons x xs ih => exact (insertBy_perm lt x (sortBy lt xs)).trans (ih.cons x)

theorem mem_sortBy {α : Type} (lt : α → α → Bool) (l : List α) (x : α) :
    x ∈ sortBy lt l ↔ x ∈ l :=
  (sortBy_perm lt l).mem_iff

/-- Looking up the result of a fold that inserts one binding per element:
the last processed element whose key matches wins; otherwise the initial
map answers. -/
theorem GoMap.find_foldl_insert {α β : Type} (f : α → String) (g : α → β)
    (l : List α) (init : List (String × β)) (k : String) :
    GoMap.find (l.foldl (fun m x => GoMap.insert m (f x) (g x)) init) k =
      match l.reverse.find? (fun x => decide (f x = k)) with
      | some x => some (g x)
      | none => GoMap.find init k := by
  induction l generalizing init with
  | nil => simp
  | cons x xs ih =>
      rw [List.foldl_cons, ih, List.reverse_cons, List.find?_append]
      cases hfk : xs.reverse.find? (fun x => decide (f x = k)) with
      | some y => simp [hfk]
      | none =>
          simp only [hfk, Option.none_orElse]
          by_cases hk : f x = k
          · simp [List.find?, hk, GoMap.find_insert_self]
          · simp [List.find?, hk, GoMap.find_insert_ne _ _ _ _ hk]

/-- Looking up the result of a fold that skips elements whose guard holds
and otherwise inserts one binding per element. -/
theorem GoMap.find_foldl_skipInsert {α β : Type} (cond : α → Prop)
    [DecidablePred cond] (f : α → String) (g : α → β) (l : List α)
    (init : List (String × β)) (k : String) :
    GoMap.find
        (l.foldl (fun m x => if cond x then m else GoMap.insert m (f x) (g x))
          init) k =
      match l.reverse.find? (fun x => !(decide (cond x)) && decide (f x = k)) with
      | some x => some (g x)
      | none => GoMap.find init k := by
  induction l generalizing init with
  | nil => simp
  | cons x xs ih =>
      rw [List.foldl_cons, ih, List.reverse_cons, List.find?_append]
      cases hfk : xs.reverse.find? (fun x => !(decide (cond x)) && decide (f x = k)) with
      | some y => simp [hfk]
      | none =>
          simp only [hfk, Option.none_orElse]
          by_cases hc : cond x
          · simp [List.find?, hc]
          · by_cases hk : f x = k
            · simp [List.find?, hc, hk, GoMap.find_insert_self]
            · simp [List.find?, hc, hk, GoMap.find_insert_ne _ _ _ _ hk]

/-- With pairwise-distinct keys, the winning element of the fold above is
the unique binding of the key. -/
theorem List.find?_key_eq_of_nodup {β : Type} {m : List (String × β)}
    {k : String} {v : β} (hnd : (m.map Prod.fst).Nodup) (hmem : (k, v) ∈ m) :
    m.find? (fun x => decide (x.1 = k)) = some (k, v) := by
  induction m with
  | nil => simp at hmem
  | cons hd tl ih =>
      obtain ⟨k', v'⟩ := hd
      simp only [List.map_cons, List.nodup_cons] at hnd
      rcases List.mem_cons.mp hmem with h3 | h3
      · rw [← h3]
        simp [List.find?]
      · have hk : ¬ k' = k := by
          intro he
          exact hnd.1 (he ▸ List.mem_map_of_mem Prod.fst h3)
        have : (decide (k' = k)) = false := by simp [hk]
        simp only [List.find?, this]
        exact ih hnd.2 h3

theorem List.find?_eq_self_of_nodup {l : List String} {x : String}
    (hnd : l.Nodup) (hmem : x ∈ l) :
    l.find? (fun y => decide (y = x)) = some x := by
  induction l with
  | nil => simp at hmem
  | cons hd tl ih =>
      rcases List.mem_cons.mp hmem with h | h
      · rw [← h]
        simp [List.find?]
      · have hk : ¬ hd = x := by
          intro he
          exact (List.nodup_cons.mp hnd).1 (he ▸ h)
        have : (decide (hd = x)) = false := by simp [hk]
        simp only [List.find?, this]
        exact ih (List.nodup_cons.mp hnd).2 h

theorem GoMap.find_isSome_iff_mem_keys {α : Type} (m : List (String × α))
    (k : String) : (GoMap.find m k).isSome ↔ k ∈ GoMap.keys m := by
  induction m with
  | nil => simp [GoMap.find, GoMap.keys]
  | cons hd tl ih =>
      obtain ⟨k', v'⟩ := hd
      by_cases h : k' = k
      · simp [GoMap.find, h, GoMap.keys]
      · simp only [GoMap.find, h, if_false, GoMap.keys, List.map_cons,
          List.mem_cons, ih]
        constructor
        · intro h2
          exact Or.inr h2
        · intro h2
          rcases h2 with h2 | h2
          · exact absurd h2.symm h
          · exact h2

theorem insertBy_sorted {α : Type} (lt : α → α → Bool) (le : α → α → Prop)
    (h1 : ∀ a b, lt a b = true → le a b)
    (h2 : ∀ a b, lt a b = false → le b a)
    (htrans : ∀ a b c, le a b → le b c → le a c)
    (x : α) (l : List α) (hs : l.Sorted le) :
    (insertBy lt x l).Sorted le := by
  induction l with
  | nil => simp [insertBy]
  | cons y ys ih =>
      cases h : lt x y with
      | true =>
          rw [insertBy, if_pos h]
          refine List.Pairwise.cons ?_ hs
          intro z hz
          rcases List.mem_cons.mp hz with h3 | h3
          · exact h3 ▸ h1 x y h
          · exact htrans x y z (h1 x y h) ((List.pairwise_cons.mp hs).1 z h3)
      | false =>
          rw [insertBy, if_neg (by simp [h])]
          have hs' := List.pairwise_cons.mp hs
          refine List.Pairwise.cons ?_ (ih hs'.2)
          intro z hz
          rcases List.mem_cons.mp ((insertBy_perm _ x ys).mem_iff.mp hz) with h3 | h3
          · exact h3 ▸ h2 x y h
          · exact hs'.1 z h3

theorem sortBy_sorted {α : Type} (lt : α → α → Bool) (le : α → α → Prop)
    (h1 : ∀ a b, lt a b = true → le a b)
    (h2 : ∀ a b, lt a b = false → le b a)
    (htrans : ∀ a b c, le a b → le b c → le a c)
    (l : List α) : (sortBy lt l).Sorted le := by
  induction l with
  | nil => simp [sortBy]
  | cons x xs ih => exact insertBy_sorted lt le h1 h2 htrans x (sortBy _ xs) ih

theorem sortBackends_sorted (l : List ComputeBackend) :
    (sortBackends l).Sorted (fun a b => a.group ≤ b.group) := by
  refine sortBy_sorted _ _ ?_ ?_ ?_ l
  · intro a b h
    exact le_of_lt (of_decide_eq_true h)
  · intro a b h
    exact le_of_not_lt (of_decide_eq_false h)
  · intro a b c hab hbc
    exact le_trans hab hbc

/-! ### Lookup lemmas for `ReconcileStatus` -/

theorem intendedBEKeys_nodup (intended : AutonegStatus) :
    (intendedBEKeys intended).Nodup :=
  ((sortBy_perm _ _).nodup_iff).mpr (List.nodup_dedup _)

theorem mem_intendedBEKeys (intended : AutonegStatus) (port : String) :
    port ∈ intendedBEKeys intended ↔
      port ∈ GoMap.keys intended.negStatus.negs := by
  unfold intendedBEKeys sortStrings
  rw [mem_sortBy, List.mem_dedup]

/-- A fold whose every step leaves the binding of `k` unchanged leaves
the whole lookup unchanged. -/
theorem GoMap.find_foldl_preserved {α β : Type}
    (step : List (String × β) → α → List (String × β)) (l : List α)
    (init : List (String × β)) (k : String)
    (h : ∀ m x, x ∈ l → GoMap.find (step m x) k = GoMap.find m k) :
    GoMap.find (l.foldl step init) k = GoMap.find init k := by
  induction l generalizing init with
  | nil => rfl
  | cons x xs ih =>
      rw [List.foldl_cons,
        ih (step init x) (fun m y hy => h m y (List.mem_cons_of_mem _ hy)),
        h init x (List.mem_cons_self _ _)]

/-- The remove map that `ReconcileStatus` produces for a port that is in
the intended NEG map and still has an intended backend-service map entry
is exactly the per-port map of the main loop. -/
theorem ReconcileStatus_find_removes (project : String)
    (actual intended : AutonegStatus) (port : String)
    (hport : (GoMap.find intended.negStatus.negs port).isSome)
    (hbs : (GoMap.find intended.config.backendServices port).isSome) :
    GoMap.find (ReconcileStatus project actual intended).1 port =
      some (removesForPort project actual intended port) := by
  have hmem : port ∈ intendedBEKeys intended :=
    (mem_intendedBEKeys intended port).mpr
      ((GoMap.find_isSome_iff_mem_keys _ _).mp hport)
  unfold ReconcileStatus
  simp only
  rw [GoMap.find_foldl_preserved]
  · rw [GoMap.find_foldl_insert]
    rw [List.find?_eq_self_of_nodup
      (List.nodup_reverse.mpr (intendedBEKeys_nodup intended))
      (List.mem_reverse.mpr hmem)]
  · intro m p _
    by_cases hc : (GoMap.find intended.config.backendServices p.1).isSome = true
    · simp [hc]
    · have hp : p.1 ≠ port := by
        intro he
        exact hc (he ▸ hbs)
      simp only [hc, if_false]
      exact GoMap.find_insert_ne _ _ _ _ hp

/-- The upsert map that `ReconcileStatus` produces for a port of the
intended NEG map is the per-port map of the main loop. -/
theorem ReconcileStatus_find_upserts (project : String)
    (actual intended : AutonegStatus) (port : String)
    (hport : (GoMap.find intended.negStatus.negs port).isSome) :
    GoMap.find (ReconcileStatus project actual intended).2 port =
      some (upsertsForPort project actual intended port) := by
  have hmem : port ∈ intendedBEKeys intended :=
    (mem_intendedBEKeys intended port).mpr
      ((GoMap.find_isSome_iff_mem_keys _ _).mp hport)
  unfold ReconcileStatus
  simp only
  rw [GoMap.find_foldl_insert]
  rw [List.find?_eq_self_of_nodup
    (List.nodup_reverse.mpr (intendedBEKeys_nodup intended))
    (List.mem_reverse.mpr hmem)]

/-- Inside `removesForPort`, an intended backend-service name resolves to
its `removeEntry` bundle (the actual-only pass never overwrites it). -/
theorem removesForPort_find (project : String)
    (actual intended : AutonegStatus) (port bname : String)
    (cfgI : AutonegNEGConfig)
    (hnd : (GoMap.keys ((GoMap.find intended.config.backendServices port).getD [])).Nodup)
    (hb : GoMap.find ((GoMap.find intended.config.backendServices port).getD [])
      bname = some cfgI) :
    GoMap.find (removesForPort project actual intended port) bname =
      some (removeEntry project actual intended port bname cfgI) := by
  unfold removesForPort
  simp only
  rw [GoMap.find_foldl_skipInsert]
  have hnone : ((GoMap.find actual.config.backendServices port).getD
      []).reverse.find?
      (fun p => !(decide ((GoMap.find ((GoMap.find
        intended.config.backendServices port).getD []) p.1).isSome = true)) &&
        decide (p.1 = bname)) = none := by
    apply List.find?_eq_none.mpr
    intro p _
    by_cases hp : p.1 = bname
    · simp [hp, hb]
    · simp [hp]
  rw [hnone]
  rw [GoMap.find_foldl_insert]
  rw [List.find?_key_eq_of_nodup
    (by rw [List.map_reverse]; exact List.nodup_reverse.mpr hnd)
    (List.mem_reverse.mpr (GoMap.find_some_mem hb))]

/-- Membership in the backend list built from a group list. -/
theorem mem_sortBackends_map {g : String} {l : List String}
    (f : String → ComputeBackend) (hg : g ∈ l) :
    f g ∈ sortBackends (l.map f) :=
  (mem_sortBy _ _ _).mpr (List.mem_map_of_mem f hg)

/-- Inside `upsertsForPort`, an intended backend-service name resolves to
its `upsertEntry` bundle. -/
theorem upsertsForPort_find (project : String)
    (actual intended : AutonegStatus) (port bname : String)
    (cfgI : AutonegNEGConfig)
    (hnd : (GoMap.keys ((GoMap.find intended.config.backendServices port).getD [])).Nodup)
    (hb : GoMap.find ((GoMap.find intended.config.backendServices port).getD [])
      bname = some cfgI) :
    GoMap.find (upsertsForPort project actual intended port) bname =
      some (upsertEntry project intended port bname cfgI) := by
  unfold upsertsForPort
  simp only
  rw [GoMap.find_foldl_skipInsert]
  have hnone : ((GoMap.find actual.config.backendServices port).getD
      []).reverse.find?
      (fun p => !(decide ((GoMap.find ((GoMap.find
        intended.config.backendServices port).getD []) p.1).isSome = true)) &&
        decide (p.1 = bname)) = none := by
    apply List.find?_eq_none.mpr
    intro p _
    by_cases hp : p.1 = bname
    · simp [hp, hb]
    · simp [hp]
  rw [hnone]
  rw [GoMap.find_foldl_insert]
  rw [List.find?_key_eq_of_nodup
    (by rw [List.map_reverse]; exact List.nodup_reverse.mpr hnd)
    (List.mem_reverse.mpr (GoMap.find_some_mem hb))]

/-! ### Claim C1 — rename handling of `ReconcileStatus` -/

/-- Claim C1, counterexample.  The claim quantifies over every port whose
intended backend-service map holds a key that is also present in the
actual map with a different (non-empty) recorded name, and requires a
remove bundle holding all actual groups and an upsert bundle under the
new name.  When the port is absent from the intended NEG map
(`intended.NEGs`), `ReconcileStatus` never visits the port (its main
loop walks `intendedBE`, which is built from `intended.NEGs`, and its
trailing loop skips ports that still have an intended backend-service
map entry), so no bundle of either kind is emitted: here the key "test"
is in both maps for port "80" with names "old" ≠ "new", the actual side
has a NEG and a zone (so the required remove bundle would be non-empty),
yet both lookups come back empty. -/
theorem reconcileStatus_rename_missing_port_cex :
    (let actual : AutonegStatus :=
      { config := { backendServices := [("80", [("test",
          { name := "old", region := "", rate := 100, connections := 0,
            customMetrics := [], initialCapacity := none,
            capacityScaler := none })])] },
        negStatus := { negs := [("80", "neg1")], zones := ["zone1"] },
        syncConfig := none }
    let intended : AutonegStatus :=
      { config := { backendServices := [("80", [("test",
          { name := "new", region := "", rate := 100, connections := 0,
            customMetrics := [], initialCapacity := none,
            capacityScaler := none })])] },
        negStatus := { negs := [], zones := [] },
        syncConfig := none }
    "old" ≠ "new" ∧ "old" ≠ "" ∧
      groupsFor "p" actual "80" ≠ [] ∧
      GoMap.find (ReconcileStatus "p" actual intended).1 "80" = none ∧
      GoMap.find (ReconcileStatus "p" actual intended).2 "80" = none) := by
  decide

/-- Claim C1 (amended: the port must additionally appear in the intended
NEG map, i.e. the intended endpoint-group index).  For every actual and
intended `AutonegStatus` and every port of the intended NEG map, when the
intended backend-service map for that port contains a key that is also
present in actual but whose recorded name differs from the intended name:
if the actual name is non-empty, the remove bundle holds every group
derived from actual's (zone, NEG) pairs for that port, retargeted at the
actual (old) name and region, while the upsert bundle under the new name
contains every intended group; if the actual name is empty it is treated
as matching, and the remove bundle is only the incremental diff (actual
groups minus intended groups) under the intended name. -/
theorem reconcileStatus_rename_evacuation (project : String)
    (actual intended : AutonegStatus) (port bname neg : String)
    (mI mA : List (String × AutonegNEGConfig)) (cfgI cfgA : AutonegNEGConfig)
    (hwf : intended.WF)
    (hneg : GoMap.find intended.negStatus.negs port = some neg)
    (hmI : GoMap.find intended.config.backendServices port = some mI)
    (hcfgI : GoMap.find mI bname = some cfgI)
    (hmA : GoMap.find actual.config.backendServices port = some mA)
    (hcfgA : GoMap.find mA bname = some cfgA)
    (hdiff : cfgA.name ≠ cfgI.name) :
    ((GoMap.find (ReconcileStatus project actual intended).2 port).bind
        (fun pm => GoMap.find pm bname) =
      some { name := cfgI.name, region := cfgI.region,
             backends := sortBackends
               ((sortStrings (groupsFor project intended port)).map
                 (fun i => intended.Backend bname port i)) }) ∧
    (∀ g ∈ groupsFor project intended port,
      intended.Backend bname port g ∈
        sortBackends ((sortStrings (groupsFor project intended port)).map
          (fun i => intended.Backend bname port i))) ∧
    (cfgA.name ≠ "" →
      ((GoMap.find (ReconcileStatus project actual intended).1 port).bind
          (fun pm => GoMap.find pm bname) =
        some { name := cfgA.name, region := cfgA.region,
               backends := sortBackends ((groupsFor project actual port).map
                 (fun a => actual.Backend bname port a)) }) ∧
      (∀ g ∈ groupsFor project actual port,
        actual.Backend bname port g ∈
          sortBackends ((groupsFor project actual port).map
            (fun a => actual.Backend bname port a)))) ∧
    (cfgA.name = "" →
      (GoMap.find (ReconcileStatus project actual intended).1 port).bind
          (fun pm => GoMap.find pm bname) =
        some { name := cfgI.name, region := cfgI.region,
               backends := sortBackends (((groupsFor project actual
                 port).filter (fun a => !(groupsFor project intended
                 port).contains a)).map
                 (fun a => actual.Backend bname port a)) }) := by
  have hport : (GoMap.find intended.negStatus.negs port).isSome := by
    rw [hneg]; rfl
  have hbs : (GoMap.find intended.config.backendServices port).isSome := by
    rw [hmI]; rfl
  have hndI : (GoMap.keys ((GoMap.find intended.config.backendServices
      port).getD [])).Nodup := by
    rw [hmI]
    exact hwf.2.1 (port, mI) (GoMap.find_some_mem hmI)
  have hbI : GoMap.find ((GoMap.find intended.config.backendServices
      port).getD []) bname = some cfgI := by
    rw [hmI]; exact hcfgI
  have hup := ReconcileStatus_find_upserts project actual intended port hport
  have hupb := upsertsForPort_find project actual intended port bname cfgI
    hndI hbI
  have hrem := ReconcileStatus_find_removes project actual intended port
    hport hbs
  have hremb := removesForPort_find project actual intended port bname cfgI
    hndI hbI
  have hre : removeEntry project actual intended port bname cfgI =
      (if cfgA.name = cfgI.name ∨ cfgA.name = "" then
        { name := cfgI.name, region := cfgI.region,
          backends := sortBackends (((groupsFor project actual port).filter
            (fun a => !(groupsFor project intended port).contains a)).map
            (fun a => actual.Backend bname port a)) }
      else
        { name := cfgA.name, region := cfgA.region,
          backends := sortBackends ((groupsFor project actual port).map
            (fun a => actual.Backend bname port a)) }) := by
    unfold removeEntry
    rw [hmA]
    simp only [Option.getD_some, hcfgA]
  refine ⟨?_, ?_, ?_, ?_⟩
  · rw [hup, Option.some_bind, hupb]
    rfl
  · intro g hg
    exact (mem_sortBy _ _ _).mpr
      (List.mem_map_of_mem _ ((mem_sortBy _ _ _).mpr hg))
  · intro hne
    constructor
    · rw [hrem, Option.some_bind, hremb, hre, if_neg]
      simp [hdiff, hne]
    · intro g hg
      exact mem_sortBackends_map _ hg
  · intro hempty
    rw [hrem, Option.some_bind, hremb, hre, if_pos (Or.inr hempty)]

/-- Claim C1, witness for the amended theorem at a concrete rename:
actual name "old", intended name "new" on port "80" with NEGs in two
zones. -/
theorem reconcileStatus_rename_evacuation_witness :
    (let actual : AutonegStatus :=
      { config := { backendServices := [("80", [("test",
          { name := "old", region := "", rate := 100, connections := 0,
            customMetrics := [], initialCapacity := none,
            capacityScaler := none })])] },
        negStatus := { negs := [("80", "neg1")], zones := ["zone1", "zone2"] },
        syncConfig := none }
    let intended : AutonegStatus :=
      { config := { backendServices := [("80", [("test",
          { name := "new", region := "r1", rate := 100, connections := 0,
            customMetrics := [], initialCapacity := none,
            capacityScaler := none })])] },
        negStatus := { negs := [("80", "neg1")], zones := ["zone1", "zone2"] },
        syncConfig := none }
    intended.WF ∧
      ("old" : String) ≠ "new" ∧
      (("old" : String) ≠ "" →
        (GoMap.find (ReconcileStatus "p" actual intended).1 "80").bind
            (fun pm => GoMap.find pm "test") =
          some { name := "old", region := "",
                 backends := sortBackends ((groupsFor "p" actual "80").map
                   (fun a => actual.Backend "test" "80" a)) })) := by
  intro actual intended
  have h := reconcileStatus_rename_evacuation "p" actual intended "80" "test"
    "neg1" _ _ _ _ (by decide) rfl rfl rfl rfl rfl (by decide)
  exact ⟨by decide, by decide, fun hne => (h.2.2.1 hne).1⟩

/-! ### Claim C4 — idempotent convergence of `ReconcileStatus` -/

/-- Claim C4: for a well-formed status `S`, `ReconcileStatus project S S`
is a no-op diff: every emitted remove bundle has an empty backends list;
for each port of `S`'s NEG map and each backend-service name configured
for it, the upsert bundle is the intended entry re-expressed as backend
entries — exactly one entry per (zone, NEG-for-that-port) pair (a
permutation of the expanded group set) sorted by group identifier; and
no upsert map is emitted for a port outside `S`'s NEG map. -/
theorem reconcileStatus_self_noop (project : String) (S : AutonegStatus)
    (hwf : S.WF) :
    (∀ port pm bname b,
        GoMap.find (ReconcileStatus project S S).1 port = some pm →
        GoMap.find pm bname = some b → b.backends = []) ∧
    (∀ port neg, GoMap.find S.negStatus.negs port = some neg →
        ∀ bname cfg,
          GoMap.find ((GoMap.find S.config.backendServices port).getD [])
              bname = some cfg →
          ((GoMap.find (ReconcileStatus project S S).2 port).bind
              (fun pm => GoMap.find pm bname) =
            some { name := cfg.name, region := cfg.region,
                   backends := sortBackends
                     ((sortStrings (groupsFor project S port)).map
                       (fun i => S.Backend bname port i)) } ∧
          (sortBackends ((sortStrings (groupsFor project S port)).map
              (fun i => S.Backend bname port i))).Perm
            ((groupsFor project S port).map (fun i => S.Backend bname port i)) ∧
          (sortBackends ((sortStrings (groupsFor project S port)).map
              (fun i => S.Backend bname port i))).Sorted
            (fun a b => a.group ≤ b.group))) ∧
    (∀ port, (GoMap.find (ReconcileStatus project S S).2 port).isSome →
        (GoMap.find S.negStatus.negs port).isSome) := by
  refine ⟨?_, ?_, ?_⟩
  · intro port pm bname b h1 h2
    unfold ReconcileStatus at h1
    simp only at h1
    rw [GoMap.find_foldl_preserved] at h1
    · rw [GoMap.find_foldl_insert] at h1
      cases hfk : (intendedBEKeys S).reverse.find?
          (fun x => decide (x = port)) with
      | none =>
          rw [hfk] at h1
          exact absurd h1 (by simp [GoMap.find])
      | some x =>
          rw [hfk] at h1
          have hxp : x = port := by
            have := List.find?_some hfk
            simpa using this
          subst hxp
          have hpm : pm = removesForPort project S S x :=
            (Option.some.injEq .. ▸ h1).symm
          subst hpm
          unfold removesForPort at h2
          simp only at h2
          rw [GoMap.find_foldl_preserved] at h2
          · rw [GoMap.find_foldl_insert] at h2
            cases hfk2 : ((GoMap.find S.config.backendServices x).getD
                []).reverse.find? (fun p => decide (p.1 = bname)) with
            | none =>
                rw [hfk2] at h2
                exact absurd h2 (by simp [GoMap.find])
            | some p =>
                rw [hfk2] at h2
                have hp1 : p.1 = bname := by
                  have := List.find?_some hfk2
                  simpa using this
                have hpmem : p ∈ (GoMap.find S.config.backendServices x).getD
                    [] := List.mem_reverse.mp (List.mem_of_find?_eq_some hfk2)
                have hb : b = removeEntry project S S x p.1 p.2 :=
                  (Option.some.injEq .. ▸ h2).symm
                subst hb
                -- the backend-service map at this port exists
                cases hmI : GoMap.find S.config.backendServices x with
                | none =>
                    rw [hmI] at hpmem
                    simp at hpmem
                | some mI =>
                    rw [hmI] at hpmem
                    simp only [Option.getD_some] at hpmem
                    have hnd : (GoMap.keys mI).Nodup :=
                      hwf.2.1 (x, mI) (GoMap.find_some_mem hmI)
                    have hfind : GoMap.find mI p.1 = some p.2 := by
                      obtain ⟨a, c⟩ := p
                      exact GoMap.find_eq_some_of_mem_nodup hnd hpmem
                    unfold removeEntry
                    rw [hmI]
                    simp only [Option.getD_some, hfind]
                    rw [if_pos (Or.inl trivial)]
                    simp only
                    have hfil : (groupsFor project S x).filter
                        (fun a => !(groupsFor project S x).contains a) = [] := by
                      rw [List.filter_eq_nil_iff]
                      intro a ha
                      simp [ha]
                    rw [hfil]
                    rfl
          · intro m p hmem
            have hsome : (GoMap.find ((GoMap.find S.config.backendServices
                x).getD []) p.1).isSome := by
              obtain ⟨a, c⟩ := p
              exact GoMap.find_isSome_of_mem hmem
            simp [hsome]
    · intro m p hmem
      have hsome : (GoMap.find S.config.backendServices p.1).isSome := by
        obtain ⟨a, c⟩ := p
        exact GoMap.find_isSome_of_mem hmem
      simp [hsome]
  · intro port neg hneg bname cfg hcfg
    have hport : (GoMap.find S.negStatus.negs port).isSome := by
      rw [hneg]; rfl
    have hnd : (GoMap.keys ((GoMap.find S.config.backendServices
        port).getD [])).Nodup := by
      cases hmI : GoMap.find S.config.backendServices port with
      | none => simp [GoMap.keys]
      | some mI =>
          simp only [Option.getD_some]
          exact hwf.2.1 (port, mI) (GoMap.find_some_mem hmI)
    rw [ReconcileStatus_find_upserts project S S port hport, Option.some_bind,
      upsertsForPort_find project S S port bname cfg hnd hcfg]
    refine ⟨rfl, ?_, ?_⟩
    · exact (sortBy_perm _ _).trans
        (List.Perm.map _ (sortBy_perm _ _))
    · exact sortBackends_sorted _
  · intro port h
    unfold ReconcileStatus at h
    simp only at h
    rw [GoMap.find_foldl_insert] at h
    cases hfk : (intendedBEKeys S).reverse.find?
        (fun x => decide (x = port)) with
    | none =>
        rw [hfk] at h
        simp [GoMap.find] at h
    | some x =>
        have hxp : x = port := by
          have := List.find?_some hfk
          simpa using this
        have hxmem : x ∈ intendedBEKeys S :=
          List.mem_reverse.mp (List.mem_of_find?_eq_some hfk)
        rw [hxp] at hxmem
        exact (GoMap.find_isSome_iff_mem_keys _ _).mpr
          ((mem_intendedBEKeys S port).mp hxmem)

/-- Claim C4, witness: a two-zone, one-port status reconciled against
itself. -/
theorem reconcileStatus_self_noop_witness :
    (let S : AutonegStatus :=
      { config := { backendServices := [("80", [("test",
          { name := "test", region := "", rate := 100, connections := 0,
            customMetrics := [], initialCapacity := none,
            capacityScaler := none })])] },
        negStatus := { negs := [("80", "neg1")], zones := ["zone1", "zone2"] },
        syncConfig := none }
    S.WF ∧
      (∀ port pm bname b,
        GoMap.find (ReconcileStatus "p" S S).1 port = some pm →
        GoMap.find pm bname = some b → b.backends = [])) := by
  intro S
  exact ⟨by decide, (reconcileStatus_self_noop "p" S (by decide)).1⟩

/-! ### Claim C10 — capacity-scaler precedence in `AutonegStatus.Backend` -/

/-- The `compute.Backend` built by `AutonegStatus.Backend` always carries
the capacity scaler computed by `capacityScalerOf` on the looked-up
config. -/
theorem backend_capacityScaler_eq (s : AutonegStatus)
    (name port group : String) :
    (s.Backend name port group).capacityScaler =
      capacityScalerOf ((GoMap.find ((GoMap.find s.config.backendServices
        port).getD []) name).getD AutonegNEGConfig.zero) := by
  unfold AutonegStatus.Backend
  by_cases h : ((GoMap.find ((GoMap.find s.config.backendServices
      port).getD []) name).getD AutonegNEGConfig.zero).rate > 0
  · simp only [h, if_true]
  · simp only [h, if_false]

/-- Claim C10, counterexample.  The claim says a value outside [0, 100]
in either field leaves the scaler at the default 1.0; but with
`initial_capacity = 50` (valid) and `capacity_scaler = 200` (out of
range) the code skips only the out-of-range assignment, so the scaler is
the seeded 0.5, not 1.0. -/
theorem backend_capacity_scaler_cex :
    (let s : AutonegStatus :=
      { config := { backendServices := [("80", [("be",
          { name := "be", region := "", rate := 100, connections := 0,
            customMetrics := [], initialCapacity := some 50,
            capacityScaler := some 200 })])] },
        negStatus := { negs := [], zones := [] }, syncConfig := none }
    (s.Backend "be" "80" "g").capacityScaler = 1 / 2 ∧
      ¬ ((1 : ℚ) / 2 = 1) ∧ ¬ ((0 : ℤ) ≤ 200 ∧ (200 : ℤ) ≤ 100)) := by
  refine ⟨?_, ?_, ?_⟩
  · rw [backend_capacityScaler_eq]
    norm_num [GoMap.find, capacityScalerOf]
  · norm_num
  · decide

/-- Claim C10 (amended): when both `initial_capacity` and
`capacity_scaler` are present and lie in [0, 100], the backend's
capacity scaler is `capacity_scaler / 100` — the ongoing override wins
over the one-time seed; an out-of-range value in a field only skips that
field's assignment, so an out-of-range `capacity_scaler` falls back to a
valid `initial_capacity / 100`, and the scaler is the default 1.0 when
both present fields are out of range (or when neither applies). -/
theorem backend_capacity_scaler_precedence (s : AutonegStatus)
    (name port group : String) (cfg : AutonegNEGConfig)
    (hcfg : GoMap.find ((GoMap.find s.config.backendServices port).getD [])
      name = some cfg) :
    (∀ cs, cfg.capacityScaler = some cs → 0 ≤ cs → cs ≤ 100 →
      (s.Backend name port group).capacityScaler = (cs : ℚ) / 100) ∧
    (∀ ic cs, cfg.initialCapacity = some ic → 0 ≤ ic → ic ≤ 100 →
      cfg.capacityScaler = some cs → ¬ (0 ≤ cs ∧ cs ≤ 100) →
      (s.Backend name port group).capacityScaler = (ic : ℚ) / 100) ∧
    ((∀ ic, cfg.initialCapacity = some ic → ¬ (0 ≤ ic ∧ ic ≤ 100)) →
      (∀ cs, cfg.capacityScaler = some cs → ¬ (0 ≤ cs ∧ cs ≤ 100)) →
      (s.Backend name port group).capacityScaler = 1) := by
  have hb := backend_capacityScaler_eq s name port group
  rw [hcfg] at hb
  simp only [Option.getD_some] at hb
  refine ⟨?_, ?_, ?_⟩
  · intro cs hcs h0 h100
    rw [hb]
    unfold capacityScalerOf
    rw [hcs]
    simp only [if_pos (And.intro h0 h100)]
  · intro ic cs hic h0 h100 hcs hbad
    rw [hb]
    unfold capacityScalerOf
    rw [hcs, hic]
    simp only [if_neg hbad, if_pos (And.intro h0 h100)]
  · intro hic hcs
    rw [hb]
    unfold capacityScalerOf
    cases h1 : cfg.capacityScaler with
    | some cs =>
        cases h2 : cfg.initialCapacity with
        | some ic => simp only [if_neg (hcs cs h1), if_neg (hic ic h2)]
        | none => simp only [if_neg (hcs cs h1)]
    | none =>
        cases h2 : cfg.initialCapacity with
        | some ic => simp only [if_neg (hic ic h2)]
        | none => rfl

/-- Claim C10, witness for the amended theorem: `initial_capacity = 50`
with `capacity_scaler = 25` resolves to 0.25. -/
theorem backend_capacity_scaler_precedence_witness :
    (let s : AutonegStatus :=
      { config := { backendServices := [("80", [("be",
          { name := "be", region := "", rate := 100, connections := 0,
            customMetrics := [], initialCapacity := some 50,
            capacityScaler := some 25 })])] },
        negStatus := { negs := [], zones := [] }, syncConfig := none }
    (s.Backend "be" "80" "g").capacityScaler = (25 : ℚ) / 100) := by
  intro s
  exact (backend_capacity_scaler_precedence s "be" "80" "g" _ rfl).1 25 rfl
    (by decide) (by decide)

/-! ### Claim C2 — balancing-mode precedence (spec-modelled) -/

/-- Claim C2 (spec-modelled): the backend entry built by the current
`AutonegStatus.Backend` (modelled as `BackendCurrent`, the revision in
`src/` predating custom metrics) selects its balancing mode by the
precedence custom-metrics > rate > connections: a non-empty
custom-metrics list yields CUSTOM_METRICS even when a rate is also set;
otherwise a positive rate yields RATE with `MaxRatePerEndpoint` the
configured rate; otherwise CONNECTION with `MaxConnectionsPerEndpoint`
the configured connections value (as the API's int64, possibly zero). -/
theorem backendCurrent_mode_precedence (s : AutonegStatus)
    (name port group : String) (cfg : AutonegNEGConfig)
    (hcfg : GoMap.find ((GoMap.find s.config.backendServices port).getD [])
      name = some cfg) :
    (cfg.customMetrics ≠ [] →
      (s.BackendCurrent name port group).balancingMode = "CUSTOM_METRICS" ∧
      (s.BackendCurrent name port group).customMetrics = cfg.customMetrics) ∧
    (cfg.customMetrics = [] → cfg.rate > 0 →
      (s.BackendCurrent name port group).balancingMode = "RATE" ∧
      (s.BackendCurrent name port group).maxRatePerEndpoint = cfg.rate) ∧
    (cfg.customMetrics = [] → ¬ cfg.rate > 0 →
      (s.BackendCurrent name port group).balancingMode = "CONNECTION" ∧
      (s.BackendCurrent name port group).maxConnectionsPerEndpoint =
        goTrunc cfg.connections) := by
  unfold AutonegStatus.BackendCurrent
  rw [hcfg]
  simp only [Option.getD_some]
  refine ⟨?_, ?_, ?_⟩
  · intro hcm
    have hlen : cfg.customMetrics.length > 0 := List.length_pos.mpr hcm
    rw [if_pos hlen]
    exact ⟨rfl, rfl⟩
  · intro hcm hrate
    rw [hcm]
    simp only [List.length_nil, gt_iff_lt, lt_self_iff_false, if_false,
      if_pos hrate]
    exact ⟨by trivial, by trivial⟩
  · intro hcm hrate
    rw [hcm]
    simp only [List.length_nil, gt_iff_lt, lt_self_iff_false, if_false,
      if_neg hrate]
    exact ⟨by trivial, by trivial⟩

/-- Claim C2, witness: a config with both `max_rate_per_endpoint = 100`
and one custom metric resolves to CUSTOM_METRICS. -/
theorem backendCurrent_mode_precedence_witness :
    (let cfg : AutonegNEGConfig :=
      { name := "be", region := "", rate := 100, connections := 0,
        customMetrics :=
          [{ dryRun := false, maxUtilization := 4 / 5,
             name := "orca.named_metrics.cool_one" }],
        initialCapacity := none, capacityScaler := none }
    let s : AutonegStatus :=
      { config := { backendServices := [("80", [("be", cfg)])] },
        negStatus := { negs := [], zones := [] }, syncConfig := none }
    cfg.customMetrics ≠ [] ∧ cfg.rate > 0 ∧
      (s.BackendCurrent "be" "80" "g").balancingMode = "CUSTOM_METRICS") := by
  intro cfg s
  refine ⟨by decide, by decide, ?_⟩
  exact ((backendCurrent_mode_precedence s "be" "80" "g" cfg rfl).1
    (by decide)).1

/-! ### Claim C8 — custom-metrics validation (spec-modelled) -/

/-- A scan that hits a violating element reports an error. -/
theorem firstErr_isSome_of_mem {α : Type} {l : List α}
    {f : α → Option String} {x : α} (hx : x ∈ l) (hfx : (f x).isSome) :
    (firstErr l f).isSome := by
  induction l with
  | nil => simp at hx
  | cons hd tl ih =>
      unfold firstErr
      cases hf : f hd with
      | some e => rfl
      | none =>
          rcases List.mem_cons.mp hx with h | h
          · rw [h, hf] at hfx
            simp at hfx
          · exact ih h

/-- Claim C8 (spec-modelled): configuration validation rejects any
decoded config holding a backend whose custom-metrics list either has
more than 3 entries that are not all dry-run beyond the first three, or
contains an entry whose `max_utilization` lies outside [0.0, 1.0] — for
any such config `validateConfig` returns an error, so the config is
never accepted. -/
theorem validateConfig_rejects_bad_custom_metrics (config : AutonegConfig)
    (port bname : String) (m : List (String × AutonegNEGConfig))
    (cfg : AutonegNEGConfig)
    (hm : GoMap.find config.backendServices port = some m)
    (hcfg : GoMap.find m bname = some cfg)
    (hbad : (∃ cm ∈ cfg.customMetrics,
        cm.maxUtilization < 0 ∨ cm.maxUtilization > 1) ∨
      (cfg.customMetrics.length > 3 ∧
        ¬ (∀ cm ∈ cfg.customMetrics.drop 3, cm.dryRun))) :
    (validateConfig config).isSome := by
  have hcm : (validateCustomMetrics cfg).isSome := by
    unfold validateCustomMetrics
    cases hfe : firstErr cfg.customMetrics (fun cm =>
        if cm.maxUtilization < 0 ∨ cm.maxUtilization > 1 then
          some "max_utilization must be in the range 0.0 to 1.0"
        else none) with
    | some e => rfl
    | none =>
        rcases hbad with ⟨cm, hmem, hviol⟩ | hlen
        · have : (firstErr cfg.customMetrics (fun cm =>
              if cm.maxUtilization < 0 ∨ cm.maxUtilization > 1 then
                some "max_utilization must be in the range 0.0 to 1.0"
              else none)).isSome :=
            firstErr_isSome_of_mem hmem (by rw [if_pos hviol]; rfl)
          rw [hfe] at this
          simp at this
        · simp only [if_pos hlen]
          rfl
  have hinner : (firstErr config.backendServices (fun cfgs =>
      firstErr cfgs.2 (fun c => validateCustomMetrics c.2))).isSome :=
    firstErr_isSome_of_mem (GoMap.find_some_mem hm)
      (firstErr_isSome_of_mem (x := (bname, cfg)) (GoMap.find_some_mem hcfg)
        hcm)
  unfold validateConfig
  cases hv : validateNewConfig config with
  | some e => rfl
  | none => exact hinner

/-! ### Lemmas about the name generator's string functions -/

theorem joinDash_length (l : List GoStr) (h : l ≠ []) :
    (joinDash l).length + 1 = (l.map List.length).sum + l.length := by
  induction l with
  | nil => exact absurd rfl h
  | cons f fs ih =>
      cases fs with
      | nil => simp [joinDash]
      | cons f2 fs2 =>
          have h2 : joinDash (f :: f2 :: fs2) = f ++ '-' :: joinDash (f2 :: fs2) :=
            rfl
          rw [h2]
          simp only [List.length_append, List.length_cons, List.map_cons,
            List.sum_cons]
          have := ih (by simp)
          simp only [List.map_cons, List.sum_cons, List.length_cons] at this ⊢
          omega

theorem splitOnDash_ne_nil (l : GoStr) : splitOnDash l ≠ [] := by
  induction l with
  | nil => simp [splitOnDash]
  | cons c rest ih =>
      cases hr : splitOnDash rest with
      | nil => exact absurd hr ih
      | cons f fs =>
          by_cases hc : c = '-'
          · simp [splitOnDash, hr, hc]
          · simp [splitOnDash, hr, hc]

theorem splitOnDash_cons (c : Char) (rest : GoStr) :
    splitOnDash (c :: rest) =
      if c = '-' then [] :: splitOnDash rest
      else
        match splitOnDash rest with
        | [] => [[c]]
        | f :: fs => (c :: f) :: fs := by
  by_cases hc : c = '-'
  · cases hr : splitOnDash rest with
    | nil => simp [splitOnDash, hr, hc]
    | cons f fs => simp [splitOnDash, hr, hc]
  · cases hr : splitOnDash rest with
    | nil => simp [splitOnDash, hr, hc]
    | cons f fs => simp [splitOnDash, hr, hc]

theorem splitOnDash_length (l : GoStr) :
    (splitOnDash l).length = countDash l + 1 := by
  induction l with
  | nil => simp [splitOnDash, countDash]
  | cons c rest ih =>
      rw [splitOnDash_cons]
      by_cases hc : c = '-'
      · subst hc
        have hcount : countDash ('-' :: rest) = countDash rest + 1 := by
          simp [countDash, List.count_cons]
        rw [if_pos rfl, hcount]
        simp only [List.length_cons, ih]
      · rw [if_neg hc]
        have hcount : countDash (c :: rest) = countDash rest := by
          simp [countDash, List.count_cons, beq_iff_eq, Ne.symm hc]
        rw [hcount]
        cases hr : splitOnDash rest with
        | nil => exact absurd hr (splitOnDash_ne_nil rest)
        | cons f fs =>
            rw [hr] at ih
            simp only [List.length_cons] at ih
            simp only [List.length_cons]
            omega

theorem joinDash_splitOnDash (l : GoStr) : joinDash (splitOnDash l) = l := by
  induction l with
  | nil => simp [splitOnDash, joinDash]
  | cons c rest ih =>
      rw [splitOnDash_cons]
      by_cases hc : c = '-'
      · subst hc
        rw [if_pos rfl]
        cases hr : splitOnDash rest with
        | nil => exact absurd hr (splitOnDash_ne_nil rest)
        | cons f fs =>
            rw [hr] at ih
            rw [show joinDash ([] :: f :: fs) = [] ++ '-' :: joinDash (f :: fs)
              from rfl, ih]
            rfl
      · rw [if_neg hc]
        cases hr : splitOnDash rest with
        | nil => exact absurd hr (splitOnDash_ne_nil rest)
        | cons f fs =>
            rw [hr] at ih
            cases fs with
            | nil =>
                rw [show joinDash [f] = f from rfl] at ih
                rw [show joinDash [c :: f] = c :: f from rfl, ih]
            | cons f2 fs2 =>
                rw [show joinDash (f :: f2 :: fs2) =
                  f ++ '-' :: joinDash (f2 :: fs2) from rfl] at ih
                rw [show joinDash ((c :: f) :: f2 :: fs2) =
                  (c :: f) ++ '-' :: joinDash (f2 :: fs2) from rfl,
                  List.cons_append, ih]

theorem countHashFuel_congr (f : ℕ) :
    ∀ (g : ℕ) (s : GoStr), s.length ≤ f → s.length ≤ g →
      countHashFuel f s = countHashFuel g s := by
  induction f with
  | zero =>
      intro g s h1 _
      have hs : s = [] := List.eq_nil_of_length_eq_zero (Nat.le_zero.mp h1)
      subst hs
      cases g <;> rfl
  | succ f ih =>
      intro g s h1 h2
      cases s with
      | nil => cases g <;> rfl
      | cons c rest =>
          cases g with
          | zero => exact absurd h2 (by simp)
          | succ g =>
              simp only [countHashFuel]
              simp only [List.length_cons, Nat.succ_le_succ_iff] at h1 h2
              by_cases hif : (c :: rest).take 6 = hashTag
              · rw [if_pos hif, if_pos hif,
                  ih g (rest.drop 5)
                    (le_trans (by rw [List.length_drop]; omega) h1)
                    (le_trans (by rw [List.length_drop]; omega) h2)]
              · rw [if_neg hif, if_neg hif, ih g rest h1 h2]

/-- One-step unfolding of the hash-token scan. -/
theorem countHash_cons_eq (c : Char) (rest : GoStr) :
    countHash (c :: rest) =
      if (c :: rest).take 6 = hashTag then 1 + countHash (rest.drop 5)
      else countHash rest := by
  unfold countHash
  simp only [List.length_cons, countHashFuel]
  by_cases hif : (c :: rest).take 6 = hashTag
  · rw [if_pos hif, if_pos hif,
      countHashFuel_congr rest.length (rest.drop 5).length (rest.drop 5)
        (by rw [List.length_drop]; omega) le_rfl]
  · rw [if_neg hif, if_neg hif]

theorem countHash_cons_ne (c : Char) (l : GoStr) (hc : c ≠ '\x7b') :
    countHash (c :: l) = countHash l := by
  rw [countHash_cons_eq]
  rw [if_neg]
  intro he
  have h6 : (c :: l).take 6 = c :: l.take 5 := rfl
  rw [h6] at he
  have hh : hashTag = '\x7b' :: "hash\x7d".data := rfl
  rw [hh] at he
  injection he with h1 _
  exact hc h1

theorem countHash_no_brace_append (cs l : GoStr)
    (h : ∀ c ∈ cs, c ≠ '\x7b') : countHash (cs ++ l) = countHash l := by
  induction cs with
  | nil => rfl
  | cons c cs2 ih =>
      rw [List.cons_append,
        countHash_cons_ne c (cs2 ++ l) (h c (List.mem_cons_self _ _)),
        ih (fun c2 hc2 => h c2 (List.mem_cons_of_mem _ hc2))]

theorem countHash_hashTag_append (l : GoStr) :
    countHash (hashTag ++ l) = 1 + countHash l := by
  rw [show hashTag ++ l =
    '\x7b' :: 'h' :: 'a' :: 's' :: 'h' :: '\x7d' :: l from rfl]
  rw [countHash_cons_eq]
  rw [show List.take 6 ('\x7b' :: 'h' :: 'a' :: 's' :: 'h' :: '\x7d' :: l) =
    hashTag from rfl]
  rw [if_pos rfl]
  rw [show List.drop 5 ('h' :: 'a' :: 's' :: 'h' :: '\x7d' :: l) = l from rfl]

theorem countHash_token_append (t l : GoStr)
    (ht : t = namespaceTag ∨ t = nameTag ∨ t = portTag ∨ t = hashTag) :
    countHash (t ++ l) = (if t = hashTag then 1 else 0) + countHash l := by
  rcases ht with ht | ht | ht | ht
  · subst ht
    rw [if_neg (by decide)]
    rw [show namespaceTag ++ l = '\x7b' :: ("namespace\x7d".data ++ l) from rfl]
    rw [countHash_cons_eq]
    rw [show List.take 6 ('\x7b' :: ("namespace\x7d".data ++ l)) =
      '\x7b' :: 'n' :: 'a' :: 'm' :: 'e' :: 's' :: [] from rfl]
    rw [if_neg (by decide)]
    rw [countHash_no_brace_append _ _ (by decide)]
    simp
  · subst ht
    rw [if_neg (by decide)]
    rw [show nameTag ++ l = '\x7b' :: ("name\x7d".data ++ l) from rfl]
    rw [countHash_cons_eq]
    rw [show List.take 6 ('\x7b' :: ("name\x7d".data ++ l)) =
      '\x7b' :: 'n' :: 'a' :: 'm' :: 'e' :: '\x7d' :: [] from rfl]
    rw [if_neg (by decide)]
    rw [countHash_no_brace_append _ _ (by decide)]
    simp
  · subst ht
    rw [if_neg (by decide)]
    rw [show portTag ++ l = '\x7b' :: ("port\x7d".data ++ l) from rfl]
    rw [countHash_cons_eq]
    rw [show List.take 6 ('\x7b' :: ("port\x7d".data ++ l)) =
      '\x7b' :: 'p' :: 'o' :: 'r' :: 't' :: '\x7d' :: [] from rfl]
    rw [if_neg (by decide)]
    rw [countHash_no_brace_append _ _ (by decide)]
    simp
  · subst ht
    rw [if_pos rfl, countHash_hashTag_append]

theorem countHash_joinDash (tags : List GoStr)
    (h : ∀ tag ∈ tags, tag = namespaceTag ∨ tag = nameTag ∨ tag = portTag ∨
      tag = hashTag) :
    countHash (joinDash tags) = tags.count hashTag := by
  induction tags with
  | nil => simp [joinDash, countHash, countHashFuel]
  | cons t ts ih =>
      have ht := h t (List.mem_cons_self _ _)
      have hts := fun tag htag => h tag (List.mem_cons_of_mem _ htag)
      cases ts with
      | nil =>
          rw [show joinDash [t] = t from rfl, show t = t ++ [] by simp,
            countHash_token_append t [] ht]
          simp only [countHash, countHashFuel, List.length_nil,
            List.count_cons, List.count_nil]
          by_cases he : t = hashTag
          · simp [he]
          · simp [he, fun hx => he (by simpa using hx)]
      | cons t2 ts2 =>
          rw [show joinDash (t :: t2 :: ts2) = t ++ '-' :: joinDash (t2 :: ts2)
            from rfl]
          rw [countHash_token_append t _ ht,
            countHash_cons_ne '-' _ (by decide), ih hts]
          simp only [List.count_cons]
          by_cases he : t = hashTag
          · simp [he]
            omega
          · simp [he, fun hx => he (by simpa using hx)]

/-! ### Arithmetic of `TrimFieldsEvenly` -/

theorem sum_map_mul_right (lens : List ℕ) (e : ℕ) :
    (lens.map (fun a => a * e)).sum = lens.sum * e := by
  induction lens with
  | nil => simp
  | cons a l ih => simp [ih, Nat.add_mul]

/-- The summed floors never exceed the exact quotient sum. -/
theorem mul_sum_div_le (lens : List ℕ) (e t : ℕ) :
    t * (lens.map (fun a => a * e / t)).sum ≤ lens.sum * e := by
  induction lens with
  | nil => simp
  | cons a l ih =>
      simp only [List.map_cons, List.sum_cons, Nat.mul_add, Nat.add_mul]
      have h1 : t * (a * e / t) ≤ a * e := by
        rw [Nat.mul_comm]
        exact Nat.div_mul_le_self (a * e) t
      exact Nat.add_le_add h1 ih

/-- The summed floors fall short of the exact quotient sum by less than
one unit per field. -/
theorem sum_lt_mul_div_add (lens : List ℕ) (e t : ℕ) (ht : 0 < t)
    (hne : lens ≠ []) :
    lens.sum * e < t * ((lens.map (fun a => a * e / t)).sum + lens.length) := by
  induction lens with
  | nil => exact absurd rfl hne
  | cons a l ih =>
      have hpt : a * e < t * (a * e / t) + t := by
        have hm := Nat.div_add_mod (a * e) t
        have hlt := Nat.mod_lt (a * e) ht
        omega
      cases l with
      | nil =>
          simp only [List.map_cons, List.map_nil, List.sum_cons, List.sum_nil,
            List.length_cons, List.length_nil]
          calc (a + 0) * e = a * e := by ring
          _ < t * (a * e / t) + t := hpt
          _ = t * (a * e / t + 0 + (0 + 1)) := by ring
      | cons b l2 =>
          have hih := ih (by simp)
          simp only [List.map_cons, List.sum_cons, List.length_cons] at hih ⊢
          calc (a + (b + l2.sum)) * e = a * e + (b + l2.sum) * e := by ring
          _ < (t * (a * e / t) + t) +
              t * (b * e / t + (l2.map (fun a => a * e / t)).sum +
                (l2.length + 1)) := by
                exact Nat.add_lt_add hpt hih
          _ = t * (a * e / t + (b * e / t +
              (l2.map (fun a => a * e / t)).sum) + (l2.length + 1 + 1)) := by
                ring

/-- Splitting the computed per-field slice bounds into the exact parts. -/
theorem lengths_sum_eq (fields : List GoStr) (e t : ℕ) :
    (fields.map (fun s =>
      (s.length : ℤ) - ((s.length * e / t : ℕ) : ℤ) - 1)).sum =
      (((fields.map List.length).sum : ℕ) : ℤ) -
        (((fields.map (fun s => s.length * e / t)).sum : ℕ) : ℤ) -
        fields.length := by
  induction fields with
  | nil => simp
  | cons f fs ih =>
      simp only [List.map_cons, List.sum_cons, List.length_cons, ih]
      push_cast
      ring

/-- Specification of `goSliceAll` on success: every bound was admissible
and the resulting lengths are exactly the bounds. -/
theorem goSliceAll_spec (ps : List (GoStr × ℤ)) (tf : List GoStr)
    (h : goSliceAll ps = some tf) :
    tf.length = ps.length ∧
      ((tf.map List.length).sum : ℤ) = (ps.map Prod.snd).sum := by
  induction ps generalizing tf with
  | nil =>
      simp only [goSliceAll, Option.some.injEq] at h
      subst h
      simp
  | cons p ps2 ih =>
      simp only [goSliceAll] at h
      cases h1 : goSliceTo p.1 p.2 with
      | none => rw [h1] at h; exact absurd h (by simp)
      | some sl =>
          cases h2 : goSliceAll ps2 with
          | none => rw [h1, h2] at h; exact absurd h (by simp)
          | some rest =>
              rw [h1, h2] at h
              simp only [Option.some.injEq] at h
              subst h
              obtain ⟨hlen, hsum⟩ := ih rest h2
              unfold goSliceTo at h1
              by_cases hc : 0 ≤ p.2 ∧ p.2 ≤ (p.1.length : ℤ)
              · rw [if_pos hc] at h1
                simp only [Option.some.injEq] at h1
                subst h1
                constructor
                · simp [hlen]
                · simp only [List.map_cons, List.sum_cons, hsum,
                    List.length_take]
                  push_cast at hsum ⊢
                  omega
              · rw [if_neg hc] at h1
                exact absurd h1 (by simp)

/-- On success, `TrimFieldsEvenly` keeps the number of fields. -/
theorem trimFields_length (max : ℤ) (fields tf : List GoStr)
    (h : TrimFieldsEvenly max fields = some tf) :
    tf.length = fields.length := by
  unfold TrimFieldsEvenly at h
  by_cases h1 : max ≤ 0
  · rw [if_pos h1] at h
    simp only [Option.some.injEq] at h
    rw [← h]
  · rw [if_neg h1] at h
    by_cases h2 : (((fields.map List.length).sum : ℕ) : ℤ) ≤ max
    · rw [if_pos h2] at h
      simp only [Option.some.injEq] at h
      rw [← h]
    · rw [if_neg h2] at h
      simp only at h
      by_cases h3 : ((fields.length : ℤ) <
          max - (fields.map (fun s => (s.length : ℤ) -
            ((s.length * ((((fields.map List.length).sum : ℕ) : ℤ) -
              max).toNat / (((fields.map List.length).sum : ℕ) : ℤ).toNat : ℕ) : ℤ)
            - 1)).sum)
      · rw [if_pos h3] at h
        exact absurd h (by simp)
      · rw [if_neg h3] at h
        have := (goSliceAll_spec _ _ h).1
        rw [this, List.length_zip, List.length_append, List.length_map,
          List.length_take, List.length_drop, List.length_map]
        omega

/-- On success with a positive budget, the trimmed fields' total length
is within the budget. -/
theorem trimFields_sum_le (max : ℤ) (fields tf : List GoStr)
    (hmax : 1 ≤ max) (h : TrimFieldsEvenly max fields = some tf) :
    ((tf.map List.length).sum : ℤ) ≤ max := by
  unfold TrimFieldsEvenly at h
  rw [if_neg (by omega)] at h
  by_cases h2 : (((fields.map List.length).sum : ℕ) : ℤ) ≤ max
  · rw [if_pos h2] at h
    simp only [Option.some.injEq] at h
    rw [← h]
    exact h2
  · rw [if_neg h2] at h
    simp only at h
    -- abbreviations matching the definition's lets
    set t : ℕ := (fields.map List.length).sum with hts
    set e : ℕ := ((t : ℤ) - max).toNat with hes
    set lengths : List ℤ := fields.map (fun s =>
      (s.length : ℤ) - ((s.length * e / (t : ℤ).toNat : ℕ) : ℤ) - 1) with hls
    set remaining : ℤ := max - lengths.sum with hrs
    by_cases h3 : (fields.length : ℤ) < remaining
    · rw [if_pos h3] at h
      exact absurd h (by simp)
    · rw [if_neg h3] at h
      have htpos : 0 < t := by omega
      have hfne : fields ≠ [] := by
        intro hf
        have ht0 : t = 0 := by rw [hts, hf]; rfl
        omega
      have hent : ((t : ℤ)).toNat = t := by omega
      have hee : (e : ℤ) = (t : ℤ) - max := by
        rw [hes]
        omega
      -- the floor sums
      have hmm : (fields.map (fun s => s.length * e / t)) =
          ((fields.map List.length).map (fun a => a * e / t)) := by
        simp [List.map_map, Function.comp]
      have hfl1 : (fields.map (fun s => s.length * e / t)).sum ≤ e := by
        have hm := mul_sum_div_le (fields.map List.length) e t
        rw [← hts] at hm
        rw [hmm]
        exact Nat.le_of_mul_le_mul_left (le_trans hm (le_of_eq rfl)) htpos
      have hfl2 : e < (fields.map (fun s => s.length * e / t)).sum +
          fields.length := by
        have hm := sum_lt_mul_div_add (fields.map List.length) e t htpos
          (by simpa using hfne)
        rw [← hts, List.length_map] at hm
        rw [hmm]
        exact Nat.lt_of_mul_lt_mul_left hm
      -- the sum of the computed bounds
      have hlsum : lengths.sum = (t : ℤ) -
          ((fields.map (fun s => s.length * e / t)).sum : ℤ) -
          fields.length := by
        rw [hls, hent, lengths_sum_eq, ← hts]
      have hrem1 : 1 ≤ remaining := by
        rw [hrs, hlsum]
        have := hfl2
        omega
      have hrem2 : remaining ≤ fields.length := by omega
      -- the incremented bounds sum to exactly the budget
      have hl2sum : ((lengths.take remaining.toNat).map (fun l => l + 1) ++
          lengths.drop remaining.toNat).sum = max := by
        have hsplit : lengths.sum = (lengths.take remaining.toNat).sum +
            (lengths.drop remaining.toNat).sum := by
          rw [← List.sum_append, List.take_append_drop]
        have hmap : ((lengths.take remaining.toNat).map (fun l => l + 1)).sum =
            (lengths.take remaining.toNat).sum +
              (lengths.take remaining.toNat).length := by
          induction lengths.take remaining.toNat with
          | nil => simp
          | cons a l ih2 =>
              simp only [List.map_cons, List.sum_cons, List.length_cons, ih2]
              push_cast
              ring
        have hlenlen : lengths.length = fields.length := by
          rw [hls, List.length_map]
        have htk : (lengths.take remaining.toNat).length = remaining.toNat := by
          rw [List.length_take]
          omega
        rw [List.sum_append, hmap, htk]
        omega
      have hspec := (goSliceAll_spec _ _ h).2
      have hsnd : ((fields.zip ((lengths.take remaining.toNat).map
          (fun l => l + 1) ++ lengths.drop remaining.toNat)).map Prod.snd) =
          ((lengths.take remaining.toNat).map (fun l => l + 1) ++
            lengths.drop remaining.toNat) := by
        apply List.map_snd_zip
        rw [List.length_append, List.length_map, List.length_take,
          List.length_drop, hls, List.length_map]
        omega
      rw [hsnd] at hspec
      exact le_of_eq (hspec.trans hl2sum)

/-! ### Length of the SHA-256 hash component -/

theorem compressStep_length (st : List ℕ) (kw : ℕ × ℕ) :
    (compressStep st kw).length = st.length := by
  rcases st with _ | ⟨a, _ | ⟨b, _ | ⟨c, _ | ⟨d, _ | ⟨e, _ | ⟨f, _ | ⟨g, _ |
    ⟨h, _ | ⟨i, tl⟩⟩⟩⟩⟩⟩⟩⟩⟩ <;> rfl

theorem foldl_compress_length (l : List (ℕ × ℕ)) (st : List ℕ) :
    (l.foldl compressStep st).length = st.length := by
  induction l generalizing st with
  | nil => rfl
  | cons x xs ih => rw [List.foldl_cons, ih, compressStep_length]

theorem sha256_state_length (blocks : List (List ℕ)) (H : List ℕ) :
    (blocks.foldl (fun H block =>
      List.zipWith (fun h s => w32 (h + s)) H
        ((K256.zip (schedule block 48)).foldl compressStep H)) H).length =
      H.length := by
  induction blocks generalizing H with
  | nil => rfl
  | cons b bs ih =>
      rw [List.foldl_cons, ih]
      simp only [List.length_zipWith, foldl_compress_length, Nat.min_self]

theorem sha256_length (msg : List ℕ) : (sha256 msg).length = 32 := by
  have h4 : ∀ l : List ℕ, (l.foldr (fun w acc =>
      w / 16777216 % 256 :: w / 65536 % 256 :: w / 256 % 256 :: w % 256 :: acc)
      []).length = 4 * l.length := by
    intro l
    induction l with
    | nil => rfl
    | cons x xs ih =>
        simp only [List.foldr_cons, List.length_cons, ih]
        ring
  simp only [sha256]
  rw [h4, sha256_state_length]
  rfl

theorem sha256hex_length (msg : List ℕ) : (sha256hex msg).length = 64 := by
  have h2 : ∀ l : List ℕ, (l.foldr (fun b acc =>
      hexDigit (b / 16) :: hexDigit (b % 16) :: acc) []).length =
        2 * l.length := by
    intro l
    induction l with
    | nil => rfl
    | cons x xs ih =>
        simp only [List.foldr_cons, List.length_cons, ih]
        ring
  simp only [sha256hex]
  rw [h2, sha256_length]

theorem serviceNameHash_length (ns nm pt : GoStr) :
    (serviceNameHash ns nm pt).length = 8 := by
  simp only [serviceNameHash]
  rw [List.length_take, sha256hex_length]
  omega

/-! ### The assembly loop -/

theorem assembleFields_spec (hash : GoStr) (tags tf asm : List GoStr)
    (h : assembleFields hash tags tf = some asm) :
    asm.length = tags.length ∧
      (asm.map List.length).sum ≤
        tags.count hashTag * hash.length + (tf.map List.length).sum := by
  induction tags generalizing tf asm with
  | nil =>
      simp only [assembleFields, Option.some.injEq] at h
      subst h
      simp
  | cons tag tags2 ih =>
      simp only [assembleFields] at h
      by_cases htag : tag = hashTag
      · rw [if_pos htag] at h
        cases h2 : assembleFields hash tags2 tf with
        | none => rw [h2] at h; exact absurd h (by simp)
        | some fs =>
            rw [h2] at h
            simp only [Option.map_some', Option.some.injEq] at h
            subst h
            obtain ⟨hl, hs⟩ := ih tf fs h2
            have hc : (tag :: tags2).count hashTag =
                tags2.count hashTag + 1 := by
              rw [htag]
              simp [List.count_cons]
            refine ⟨by simp [hl], ?_⟩
            rw [hc, Nat.add_mul, Nat.one_mul]
            simp only [List.map_cons, List.sum_cons]
            omega
      · rw [if_neg htag] at h
        cases tf with
        | nil => exact absurd h (by simp)
        | cons f fs2 =>
            simp only at h
            cases h2 : assembleFields hash tags2 fs2 with
            | none => rw [h2] at h; exact absurd h (by simp)
            | some rest =>
                rw [h2] at h
                simp only [Option.map_some', Option.some.injEq] at h
                subst h
                obtain ⟨hl, hs⟩ := ih fs2 rest h2
                have hc : (tag :: tags2).count hashTag =
                    tags2.count hashTag := by
                  simp [List.count_cons, htag]
                refine ⟨by simp [hl], ?_⟩
                rw [hc]
                simp only [List.map_cons, List.sum_cons]
                omega

/-- A template accepted by `IsValidServiceNameTemplate` splits into the
four known tokens. -/
theorem valid_template_tags (tpl : GoStr)
    (hvalid : IsValidServiceNameTemplate tpl = true) :
    ∀ tag ∈ splitOnDash tpl, tag = namespaceTag ∨ tag = nameTag ∨
      tag = portTag ∨ tag = hashTag := by
  unfold IsValidServiceNameTemplate at hvalid
  by_cases htpl : tpl = []
  · rw [if_pos htpl] at hvalid
    exact absurd hvalid (by decide)
  · rw [if_neg htpl] at hvalid
    intro tag htag
    exact of_decide_eq_true (List.all_eq_true.mp hvalid tag htag)

/-- Claim C5, counterexample: the template made of eight hash tokens is
accepted by `IsValidServiceNameTemplate`, yet the generated service name
has length 71 > 63 — each hash token contributes its full 8 characters
and every hyphen survives, while `TrimFieldsEvenly` can only shrink the
non-hash fields (here there are none), so nothing compensates. -/
theorem generateServiceName_overflow_cex :
    IsValidServiceNameTemplate (joinDash (List.replicate 8 hashTag)) = true ∧
      Option.map List.length
        (generateServiceName [] [] [] (joinDash (List.replicate 8 hashTag))) =
        some 71 := by
  constructor
  · decide
  · rfl

/-- Claim C5 (amended): for every template accepted by
`IsValidServiceNameTemplate` whose hash tokens and hyphens leave a
positive field budget (8·hashes + hyphens < 63), and all namespace, name
and port strings, any name returned by `generateServiceName` has length
at most 63. -/
theorem generateServiceName_length_bound (ns nm pt tpl out : GoStr)
    (hvalid : IsValidServiceNameTemplate tpl = true)
    (hbudget : 8 * countHash tpl + countDash tpl < 63)
    (hgen : generateServiceName ns nm pt tpl = some out) :
    out.length ≤ 63 := by
  simp only [generateServiceName, Option.bind_eq_some,
    Option.map_eq_some'] at hgen
  obtain ⟨tf, htf, asm, hasm, hout⟩ := hgen
  subst hout
  have htags := valid_template_tags tpl hvalid
  have hcount : (splitOnDash tpl).count hashTag = countHash tpl := by
    rw [← countHash_joinDash (splitOnDash tpl) htags, joinDash_splitOnDash]
  have hlen_tags : (splitOnDash tpl).length = countDash tpl + 1 :=
    splitOnDash_length tpl
  have hb1 : (1 : ℤ) ≤ templateBudget tpl := by
    unfold templateBudget maxNameLength
    omega
  have hsum_tf := trimFields_sum_le _ _ _ hb1 htf
  obtain ⟨hasm_len, hasm_sum⟩ := assembleFields_spec _ _ _ _ hasm
  rw [serviceNameHash_length, hcount] at hasm_sum
  have hasm_ne : asm ≠ [] := by
    intro h0
    rw [h0] at hasm_len
    simp only [List.length_nil, hlen_tags] at hasm_len
    omega
  have hjoin := joinDash_length asm hasm_ne
  have htb : templateBudget tpl =
      (63 : ℤ) - (countHash tpl : ℤ) * 8 - (countDash tpl : ℤ) := by
    unfold templateBudget maxNameLength
    push_cast
    ring
  rw [hlen_tags] at hasm_len
  omega

/-- Claim C5, witness: on the plain name template, the bound theorem's
hypotheses hold and the generated name is within 63 characters. -/
theorem generateServiceName_length_bound_witness :
    IsValidServiceNameTemplate nameTag = true ∧
      8 * countHash nameTag + countDash nameTag < 63 ∧
      generateServiceName "ns".data "svc".data "80".data nameTag =
        some "svc".data ∧
      ("svc".data : GoStr).length ≤ 63 :=
  ⟨by decide, by decide, rfl,
    generateServiceName_length_bound "ns".data "svc".data "80".data nameTag
      "svc".data (by decide) (by decide) rfl⟩

/-! ### Hash disambiguation -/

theorem assembleFields_map_length (hash1 hash2 : GoStr)
    (hh : hash1.length = hash2.length) (tags : List GoStr) :
    ∀ (tf asm1 asm2 : List GoStr),
      assembleFields hash1 tags tf = some asm1 →
      assembleFields hash2 tags tf = some asm2 →
      asm1.map List.length = asm2.map List.length := by
  induction tags with
  | nil =>
      intro tf asm1 asm2 h1 h2
      simp only [assembleFields, Option.some.injEq] at h1 h2
      rw [← h1, ← h2]
  | cons tag tags2 ih =>
      intro tf asm1 asm2 h1 h2
      simp only [assembleFields] at h1 h2
      by_cases htag : tag = hashTag
      · rw [if_pos htag] at h1 h2
        cases e1 : assembleFields hash1 tags2 tf with
        | none => rw [e1] at h1; exact absurd h1 (by simp)
        | some fs1 =>
            cases e2 : assembleFields hash2 tags2 tf with
            | none => rw [e2] at h2; exact absurd h2 (by simp)
            | some fs2 =>
                rw [e1] at h1
                rw [e2] at h2
                simp only [Option.map_some', Option.some.injEq] at h1 h2
                subst h1
                subst h2
                simp only [List.map_cons, hh, ih tf fs1 fs2 e1 e2]
      · rw [if_neg htag] at h1 h2
        cases tf with
        | nil => exact absurd h1 (by simp)
        | cons f fs =>
            simp only at h1 h2
            cases e1 : assembleFields hash1 tags2 fs with
            | none => rw [e1] at h1; exact absurd h1 (by simp)
            | some r1 =>
                cases e2 : assembleFields hash2 tags2 fs with
                | none => rw [e2] at h2; exact absurd h2 (by simp)
                | some r2 =>
                    rw [e1] at h1
                    rw [e2] at h2
                    simp only [Option.map_some', Option.some.injEq] at h1 h2
                    subst h1
                    subst h2
                    simp only [List.map_cons, ih fs r1 r2 e1 e2]

/-- `strings.Join(·, "-")` is injective on lists with the same length
profile. -/
theorem joinDash_inj (l1 : List GoStr) :
    ∀ l2 : List GoStr, l1.map List.length = l2.map List.length →
      joinDash l1 = joinDash l2 → l1 = l2 := by
  induction l1 with
  | nil =>
      intro l2 hlen _
      cases l2 with
      | nil => rfl
      | cons f2 fs2 => exact absurd hlen (by simp)
  | cons f1 fs1 ih =>
      intro l2 hlen hj
      cases l2 with
      | nil => exact absurd hlen (by simp)
      | cons f2 fs2 =>
          simp only [List.map_cons, List.cons.injEq] at hlen
          obtain ⟨hf, hfs⟩ := hlen
          cases fs1 with
          | nil =>
              cases fs2 with
              | nil =>
                  rw [show joinDash [f1] = f1 from rfl,
                    show joinDash [f2] = f2 from rfl] at hj
                  rw [hj]
              | cons g2 gs2 => exact absurd hfs (by simp)
          | cons g1 gs1 =>
              cases fs2 with
              | nil => exact absurd hfs (by simp)
              | cons g2 gs2 =>
                  rw [show joinDash (f1 :: g1 :: gs1) =
                      f1 ++ '-' :: joinDash (g1 :: gs1) from rfl,
                    show joinDash (f2 :: g2 :: gs2) =
                      f2 ++ '-' :: joinDash (g2 :: gs2) from rfl] at hj
                  obtain ⟨he, ht⟩ := List.append_inj hj hf
                  have ht2 : joinDash (g1 :: gs1) = joinDash (g2 :: gs2) := by
                    injection ht
                  rw [he, ih (g2 :: gs2) hfs ht2]

/-- Two successful assemblies over the same tags and truncated fields
that produce the same list used the same hash, provided a hash token is
present. -/
theorem assembleFields_hash_eq (hash1 hash2 : GoStr) (tags : List GoStr)
    (hmem : hashTag ∈ tags) :
    ∀ (tf asm1 asm2 : List GoStr),
      assembleFields hash1 tags tf = some asm1 →
      assembleFields hash2 tags tf = some asm2 →
      asm1 = asm2 → hash1 = hash2 := by
  induction tags with
  | nil => exact absurd hmem (by simp)
  | cons tag tags2 ih =>
      intro tf asm1 asm2 h1 h2 heq
      simp only [assembleFields] at h1 h2
      by_cases htag : tag = hashTag
      · rw [if_pos htag] at h1 h2
        cases e1 : assembleFields hash1 tags2 tf with
        | none => rw [e1] at h1; exact absurd h1 (by simp)
        | some fs1 =>
            cases e2 : assembleFields hash2 tags2 tf with
            | none => rw [e2] at h2; exact absurd h2 (by simp)
            | some fs2 =>
                rw [e1] at h1
                rw [e2] at h2
                simp only [Option.map_some', Option.some.injEq] at h1 h2
                subst h1
                subst h2
                injection heq
      · rw [if_neg htag] at h1 h2
        have hmem2 : hashTag ∈ tags2 := by
          rcases List.mem_cons.mp hmem with h | h
          · exact absurd h.symm htag
          · exact h
        cases tf with
        | nil => exact absurd h1 (by simp)
        | cons f fs =>
            simp only at h1 h2
            cases e1 : assembleFields hash1 tags2 fs with
            | none => rw [e1] at h1; exact absurd h1 (by simp)
            | some r1 =>
                cases e2 : assembleFields hash2 tags2 fs with
                | none => rw [e2] at h2; exact absurd h2 (by simp)
                | some r2 =>
                    rw [e1] at h1
                    rw [e2] at h2
                    simp only [Option.map_some', Option.some.injEq] at h1 h2
                    subst h1
                    subst h2
                    have hr : r1 = r2 := by injection heq
                    exact ih hmem2 fs r1 r2 e1 e2 hr

/-- Claim C6, counterexample: the hash is computed from the hyphen-joined
(not semicolon-joined) inputs, so the distinct triples ("a-b","c","80")
and ("a","b-c","80") — whose non-hash fields trivially collide on the
hash-only template — hash identically and produce the same generated
name; the hash also differs from the semicolon-joined digest the claim
describes. -/
theorem generateServiceName_collision_cex :
    IsValidServiceNameTemplate hashTag = true ∧
      ("a-b".data, "c".data, "80".data) ≠ ("a".data, "b-c".data, "80".data) ∧
      fieldsToTruncate "a-b".data "c".data "80".data (splitOnDash hashTag) =
        fieldsToTruncate "a".data "b-c".data "80".data (splitOnDash hashTag) ∧
      (generateServiceName "a-b".data "c".data "80".data hashTag).isSome =
        true ∧
      generateServiceName "a-b".data "c".data "80".data hashTag =
        generateServiceName "a".data "b-c".data "80".data hashTag ∧
      serviceNameHash "a-b".data "c".data "80".data ≠
        (sha256hex (utf8Bytes "a-b;c;80".data)).take 8 := by
  refine ⟨by decide, by decide, rfl, rfl, rfl, by decide⟩

/-- Claim C6 (amended): for a template containing the hash token, two
triples whose truncated non-hash fields collide (the `TrimFieldsEvenly`
outputs coincide, covering collisions introduced by the truncation
itself) still generate different names whenever their 8-char hashes
differ — the hash being the first 8 hex chars of SHA-256 of the
hyphen-joined namespace-name-port. -/
theorem generateServiceName_hash_disambiguates
    (ns1 nm1 pt1 ns2 nm2 pt2 tpl out1 out2 : GoStr) (tf : List GoStr)
    (_hvalid : IsValidServiceNameTemplate tpl = true)
    (hmem : hashTag ∈ splitOnDash tpl)
    (hhash : serviceNameHash ns1 nm1 pt1 ≠ serviceNameHash ns2 nm2 pt2)
    (htr1 : TrimFieldsEvenly (templateBudget tpl)
      (fieldsToTruncate ns1 nm1 pt1 (splitOnDash tpl)) = some tf)
    (htr2 : TrimFieldsEvenly (templateBudget tpl)
      (fieldsToTruncate ns2 nm2 pt2 (splitOnDash tpl)) = some tf)
    (h1 : generateServiceName ns1 nm1 pt1 tpl = some out1)
    (h2 : generateServiceName ns2 nm2 pt2 tpl = some out2) :
    out1 ≠ out2 := by
  simp only [generateServiceName, Option.bind_eq_some,
    Option.map_eq_some'] at h1 h2
  obtain ⟨tf1, htf1, asm1, hasm1, hout1⟩ := h1
  obtain ⟨tf2, htf2, asm2, hasm2, hout2⟩ := h2
  rw [htf1] at htr1
  rw [htf2] at htr2
  have htf : tf1 = tf2 := by
    rw [Option.some.inj htr1, Option.some.inj htr2]
  subst htf
  subst hout1
  subst hout2
  intro heq
  have hlens : asm1.map List.length = asm2.map List.length :=
    assembleFields_map_length _ _
      (by rw [serviceNameHash_length, serviceNameHash_length])
      (splitOnDash tpl) tf1 asm1 asm2 hasm1 hasm2
  have hasme : asm1 = asm2 := joinDash_inj asm1 asm2 hlens heq
  exact hhash (assembleFields_hash_eq _ _ (splitOnDash tpl) hmem
    tf1 asm1 asm2 hasm1 hasm2 hasme)

/-- Claim C6, witness: on the hash-only template the two triples
("a","b","1") and ("c","d","2") satisfy every hypothesis and the theorem
separates their generated names. -/
theorem generateServiceName_hash_disambiguates_witness :
    IsValidServiceNameTemplate hashTag = true ∧
      hashTag ∈ splitOnDash hashTag ∧
      serviceNameHash "a".data "b".data "1".data ≠
        serviceNameHash "c".data "d".data "2".data ∧
      TrimFieldsEvenly (templateBudget hashTag)
        (fieldsToTruncate "a".data "b".data "1".data (splitOnDash hashTag)) =
        some [] ∧
      TrimFieldsEvenly (templateBudget hashTag)
        (fieldsToTruncate "c".data "d".data "2".data (splitOnDash hashTag)) =
        some [] ∧
      generateServiceName "a".data "b".data "1".data hashTag =
        some (serviceNameHash "a".data "b".data "1".data) ∧
      generateServiceName "c".data "d".data "2".data hashTag =
        some (serviceNameHash "c".data "d".data "2".data) ∧
      serviceNameHash "a".data "b".data "1".data ≠
        serviceNameHash "c".data "d".data "2".data :=
  ⟨by decide, by decide, by decide, rfl, rfl, rfl, rfl,
    generateServiceName_hash_disambiguates "a".data "b".data "1".data
      "c".data "d".data "2".data hashTag
      (serviceNameHash "a".data "b".data "1".data)
      (serviceNameHash "c".data "d".data "2".data) []
      (by decide) (by decide) (by decide) rfl rfl rfl rfl⟩

/-- Claim C7: with only the legacy desired-config annotation present (no
new-mode config or new-mode status annotation), `getStatuses` succeeds
iff the exposed-ports annotation declares exactly one port; on success it
translates the legacy config into the multi-backend schema keyed by that
port and by the legacy name (defaulted to the service name when empty)
with the legacy rate; with any other number of exposed ports it returns
an error. -/
theorem getStatuses_legacy_single_port (ns name : String)
    (ann : AnnotationsDecoded) (r : ServiceReconcilerCfg)
    (raw : OldAutonegConfig)
    (hnew : ann.autoneg = none) (hst : ann.autonegStatus = none)
    (hold : ann.oldAutoneg = some raw) :
    ((∃ sv, getStatuses ns name ann r = GoOutcome.ok sv) ↔
      (ann.negConfig.getD NEGConfig.zero).exposedPorts.length = 1) ∧
    (∀ port, (ann.negConfig.getD NEGConfig.zero).exposedPorts = [port] →
      ∃ s, getStatuses ns name ann r = GoOutcome.ok (s, true) ∧
        s.config.backendServices =
          [(port, [((if raw.name = "" then name else raw.name),
            { AutonegNEGConfig.zero with
                name := (if raw.name = "" then name else raw.name),
                rate := raw.rate })])]) ∧
    ((ann.negConfig.getD NEGConfig.zero).exposedPorts.length ≠ 1 →
      ∃ e, getStatuses ns name ann r = GoOutcome.error e) := by
  cases hE : (ann.negConfig.getD NEGConfig.zero).exposedPorts with
  | nil =>
      have herr : ∃ e, getStatuses ns name ann r = GoOutcome.error e := by
        simp [getStatuses, hnew, hst, hold, applyStatusAnn, applyLegacy, hE]
      obtain ⟨e, herr⟩ := herr
      refine ⟨?_, ?_, ?_⟩
      · rw [herr]
        simp
      · intro port hport
        exact absurd hport (by simp)
      · intro _
        exact ⟨e, herr⟩
  | cons p ps =>
      cases ps with
      | nil =>
          have hok : ∃ s, getStatuses ns name ann r = GoOutcome.ok (s, true) ∧
              s.config.backendServices =
                [(p, [((if raw.name = "" then name else raw.name),
                  { AutonegNEGConfig.zero with
                      name := (if raw.name = "" then name else raw.name),
                      rate := raw.rate })])] := by
            cases hos : ann.oldAutonegStatus <;> by_cases hn : raw.name = "" <;>
              simp [getStatuses, hnew, hst, hold, applyStatusAnn, applyLegacy,
                hE, hos, hn, AutonegNEGConfig.zero]
          obtain ⟨s, hs1, hs2⟩ := hok
          refine ⟨?_, ?_, ?_⟩
          · rw [hs1]
            simp
          · intro port hport
            have hp : p = port := by
              injection hport with h1 _
            subst hp
            exact ⟨s, hs1, hs2⟩
          · intro h1
            exact absurd rfl h1
      | cons q qs =>
          have herr : ∃ e, getStatuses ns name ann r = GoOutcome.error e := by
            simp [getStatuses, hnew, hst, hold, applyStatusAnn, applyLegacy,
              hE]
          obtain ⟨e, herr⟩ := herr
          refine ⟨?_, ?_, ?_⟩
          · rw [herr]
            simp
          · intro port hport
            exact absurd hport (by simp)
          · intro _
            exact ⟨e, herr⟩

/-- Claim C7, witness: a concrete legacy annotation set with one exposed
port translates to the expected single-backend config, and with two
exposed ports errors out. -/
theorem getStatuses_legacy_single_port_witness :
    (let mkAnn : List String → AnnotationsDecoded := fun ports =>
      { negConfig := some { exposedPorts := ports }, autoneg := none,
        autonegSync := none, autonegStatus := none,
        oldAutoneg := some { name := "test", rate := 100 },
        oldAutonegStatus := none, negStatus := none }
    let r : ServiceReconcilerCfg :=
      { allowServiceName := true, serviceNameTemplate := "",
        maxRatePerEndpointDefault := 0,
        maxConnectionsPerEndpointDefault := 0,
        deregisterNEGsOnAnnotationRemoval := false }
    (∃ s, getStatuses "ns" "svc" (mkAnn ["80"]) r = GoOutcome.ok (s, true) ∧
      s.config.backendServices =
        [("80", [("test", { AutonegNEGConfig.zero with
          name := "test", rate := 100 })])]) ∧
    (∃ e, getStatuses "ns" "svc" (mkAnn ["80", "81"]) r =
      GoOutcome.error e)) := by
  intro mkAnn r
  constructor
  · have h := (getStatuses_legacy_single_port "ns" "svc" (mkAnn ["80"]) r
      { name := "test", rate := 100 } rfl rfl rfl).2.1 "80" rfl
    rw [if_neg (by decide)] at h
    exact h
  · exact (getStatuses_legacy_single_port "ns" "svc" (mkAnn ["80", "81"]) r
      { name := "test", rate := 100 } rfl rfl rfl).2.2 (by decide)

/-! ### The mutation protocol -/

theorem removeMatching_nil (l : List ComputeBackend) :
    removeMatching [] l = [] := by
  induction l with
  | nil => rfl
  | cons d ds ih => exact ih

/-- Claim C3: whenever the remove phase actually deletes an entry from
the fetched old resource and the operation is a pure move (distinct
upsert target name) or the deletion path, the protocol patches the
mutated old resource, and every API call before that patch is a fetch —
the removals are made durable before the new resource is touched. -/
theorem processPair_pushes_old_first
    (sync : Option AutonegSyncConfig) (deleting : Bool)
    (remove upsert : Backends) (env : Env)
    (hchanged : removeMatching (fetchTolerant env remove.name)
      remove.backends ≠ fetchTolerant env remove.name)
    (hcond : upsert.name ≠ remove.name ∨ deleting = true) :
    ∃ pre post,
      (processPair sync deleting remove upsert env).2 =
        pre ++ APICall.patch remove.name
          (removeMatching (fetchTolerant env remove.name) remove.backends) ::
          post ∧
      ∀ c ∈ pre, ∃ n, c = APICall.get n := by
  by_cases hname : upsert.name = remove.name
  · have hdel : deleting = true := by
      rcases hcond with h | h
      · exact absurd hname h
      · exact h
    by_cases hub : upsert.backends = []
    · refine ⟨[APICall.get remove.name], [], ?_, ?_⟩
      · simp [processPair, hname, hdel, hub, hchanged]
      · intro c hc
        exact ⟨remove.name, by simpa using hc⟩
    · refine ⟨[APICall.get remove.name],
        [APICall.patch upsert.name (upsert.backends.foldl (upsertOne sync)
          (removeMatching (fetchTolerant env remove.name) remove.backends))],
        ?_, ?_⟩
      · simp [processPair, hname, hdel, hub, hchanged]
      · intro c hc
        exact ⟨remove.name, by simpa using hc⟩
  · by_cases hub : upsert.backends = []
    · refine ⟨[APICall.get remove.name, APICall.get upsert.name], [], ?_, ?_⟩
      · simp [processPair, hname, hub, hchanged]
      · intro c hc
        rcases List.mem_cons.mp hc with h | h
        · exact ⟨remove.name, h⟩
        · exact ⟨upsert.name, by simpa using h⟩
    · refine ⟨[APICall.get remove.name, APICall.get upsert.name],
        [APICall.patch upsert.name (upsert.backends.foldl (upsertOne sync)
          (fetchTolerant env upsert.name))], ?_, ?_⟩
      · simp [processPair, hname, hub, hchanged]
      · intro c hc
        rcases List.mem_cons.mp hc with h | h
        · exact ⟨remove.name, h⟩
        · exact ⟨upsert.name, by simpa using h⟩

/-- Claim C3, witness: evacuating one backend from "old" towards "new"
issues the patch of the mutated "old" resource right after the two
fetches. -/
theorem processPair_pushes_old_first_witness :
    (let be : ComputeBackend :=
      { group := "g1", balancingMode := "RATE", maxRatePerEndpoint := 100,
        maxConnectionsPerEndpoint := 0, capacityScaler := 1,
        customMetrics := [] }
     let rm : Backends := { name := "old", region := "", backends := [be] }
     let up : Backends := { name := "new", region := "", backends := [be] }
     let env : Env := [("old", [be])]
     (removeMatching (fetchTolerant env rm.name) rm.backends ≠
        fetchTolerant env rm.name) ∧
     (up.name ≠ rm.name ∨ false = true) ∧
     ∃ pre post,
       (processPair none false rm up env).2 =
         pre ++ APICall.patch rm.name
           (removeMatching (fetchTolerant env rm.name) rm.backends) :: post ∧
       ∀ c ∈ pre, ∃ n, c = APICall.get n) := by
  intro be rm up env
  refine ⟨by decide, Or.inl (by decide), ?_⟩
  exact processPair_pushes_old_first none false rm up env (by decide)
    (Or.inl (by decide))

/-- Claim C9: a missing remove-target backend service is recovered
locally — the synthesized empty resource makes a remove-only pass
succeed as a no-op (store unchanged, a single fetch issued) — and a
missing differently-named upsert target is tolerated the same way: the
pair still proceeds, upserting into the synthesized empty resource and
issuing its patch rather than aborting. -/
theorem processPair_not_found_tolerant
    (sync : Option AutonegSyncConfig) (deleting : Bool)
    (remove upsert : Backends) (env : Env) :
    (GoMap.find env remove.name = none → upsert.name = remove.name →
      upsert.backends = [] →
      processPair sync deleting remove upsert env =
        (env, [APICall.get remove.name])) ∧
    (upsert.name ≠ remove.name → GoMap.find env upsert.name = none →
      upsert.backends ≠ [] →
      ∃ mid, (processPair sync deleting remove upsert env).2 =
        APICall.get remove.name :: APICall.get upsert.name ::
          (mid ++ [APICall.patch upsert.name
            (upsert.backends.foldl (upsertOne sync) [])])) := by
  constructor
  · intro hfind hname hub
    simp [processPair, fetchTolerant, hfind, hname, hub, removeMatching_nil]
  · intro hne hfind2 hub
    refine ⟨(if (decide (removeMatching (fetchTolerant env remove.name)
        remove.backends ≠ fetchTolerant env remove.name) &&
          (decide (upsert.name ≠ remove.name) || deleting)) = true then
        [APICall.patch remove.name
          (removeMatching (fetchTolerant env remove.name) remove.backends)]
      else []), ?_⟩
    by_cases hpush : (decide (removeMatching (fetchTolerant env remove.name)
        remove.backends ≠ fetchTolerant env remove.name) &&
          (decide (upsert.name ≠ remove.name) || deleting)) = true
    · simp [processPair, hne, hub, hpush, fetchTolerant, hfind2]
    · simp [processPair, hne, hub, hpush, fetchTolerant, hfind2]

/-- Claim C9, witness: a remove-only pass against the absent "gone"
service is a no-op, and an upsert towards the absent "new" service still
issues its patch. -/
theorem processPair_not_found_tolerant_witness :
    (let be : ComputeBackend :=
      { group := "g1", balancingMode := "RATE", maxRatePerEndpoint := 100,
        maxConnectionsPerEndpoint := 0, capacityScaler := 1,
        customMetrics := [] }
     let rmGone : Backends := { name := "gone", region := "", backends := [be] }
     let upGone : Backends := { name := "gone", region := "", backends := [] }
     let rmOld : Backends := { name := "old", region := "", backends := [] }
     let upNew : Backends := { name := "new", region := "", backends := [be] }
     let env : Env := [("old", [be])]
     processPair none false rmGone upGone [] =
       ([], [APICall.get "gone"]) ∧
     ∃ mid, (processPair none false rmOld upNew env).2 =
       APICall.get "old" :: APICall.get "new" ::
         (mid ++ [APICall.patch "new" ([be].foldl (upsertOne none) [])])) := by
  intro be rmGone upGone rmOld upNew env
  constructor
  · exact (processPair_not_found_tolerant none false rmGone upGone []).1
      rfl rfl rfl
  · exact (processPair_not_found_tolerant none false rmOld upNew env).2
      (by decide) rfl (by decide)

/-- Claim C8, witness: a config with four non-dry-run custom metrics is
rejected. -/
theorem validateConfig_rejects_bad_custom_metrics_witness :
    (let cfg : AutonegNEGConfig :=
      { name := "be", region := "", rate := 0, connections := 0,
        customMetrics :=
          [{ dryRun := false, maxUtilization := 1 / 2, name := "m1" },
           { dryRun := false, maxUtilization := 1 / 2, name := "m2" },
           { dryRun := false, maxUtilization := 1 / 2, name := "m3" },
           { dryRun := false, maxUtilization := 1 / 2, name := "m4" }],
        initialCapacity := none, capacityScaler := none }
    let config : AutonegConfig := { backendServices := [("80", [("be", cfg)])] }
    cfg.customMetrics.length > 3 ∧
      (validateConfig config).isSome) := by
  intro cfg config
  refine ⟨by decide, ?_⟩
  exact validateConfig_rejects_bad_custom_metrics config "80" "be" _ cfg rfl
    rfl (Or.inr ⟨by decide, by decide⟩)

end Autoneg
